import Mathlib

/-!
Verification development for the incremental indexing and query engine of the
asciinema web GUI.

The JavaScript sources are embedded shallowly:

* JS strings are `List Char` (`Str`);
* the SQLite tables (`indexed_files`, `indexing_strategies`, `cast_content`,
  `version`) are Lean lists inside a `DbState` record, and every statement the
  code prepares is a function on `DbState`;
* SQLite transactions are modelled by keeping the state at `BEGIN` and
  returning it unchanged when the transaction body throws (`ROLLBACK`);
* JS numbers that the code only ever uses as integers (sizes, millisecond
  timestamps, ids) are `Int`/`Nat`; a JS `null`/`undefined` slot is `Option`;
* the regexes of `stripColors` and `parseFilenameDate` are executed by a small
  backtracking engine with JavaScript semantics (ordered alternation,
  greedy/lazy quantifiers, `.` excluding line terminators).
-/

namespace CastIndex

/-- JavaScript strings are modelled as lists of characters. -/
abbrev Str := List Char

/-- Convert a Lean string literal to the model's string type. -/
def str (s : String) : Str := s.toList

/-- Prefix test: `pat` matches at the head of `s`. -/
def lookingAt (s pat : Str) : Bool := decide (s.take pat.length = pat)

/-- JS `String.prototype.includes` restricted to what the sources use:
substring containment. -/
def containsSub : Str → Str → Bool
  | [], pat => decide (pat = [])
  | c :: rest, pat => lookingAt (c :: rest) pat || containsSub rest pat

/-- JS `String.prototype.endsWith`. -/
def endsWith (s suffix : Str) : Bool :=
  decide (suffix.length ≤ s.length) && decide (s.drop (s.length - suffix.length) = suffix)

/-- Node `path.basename(p, ext)` drops `ext` only when it is a suffix of the
basename. -/
def dropSuffix (s suffix : Str) : Str :=
  if endsWith s suffix then s.take (s.length - suffix.length) else s

/-- Accumulator for `basename`: restart at every `/`. -/
def basenameAux : Str → Str → Str
  | [], acc => acc.reverse
  | c :: rest, acc => if c = '/' then basenameAux rest [] else basenameAux rest (c :: acc)

/-- Node `path.basename`: the component after the last `/`. -/
def basename (p : Str) : Str := basenameAux p []

/-- Lowercase an ASCII letter; other characters are unchanged (the ASCII case
folding SQLite's `LIKE` performs). -/
def asciiLower (c : Char) : Char :=
  if 'A' ≤ c ∧ c ≤ 'Z' then Char.ofNat (c.toNat + 32) else c

/-- Character match of SQLite `LIKE`: case-insensitive on ASCII. -/
def likeCharEq (p c : Char) : Bool := decide (asciiLower p = asciiLower c)

/-- SQLite `LIKE` pattern matching (`%` any run, `_` any character,
case-insensitive ASCII), used by the tag filter `c.tags LIKE '%tag%'`. -/
def likeMatchGo : Nat → Str → Str → Bool
  | 0, _, _ => false
  | _ + 1, [], [] => true
  | _ + 1, [], _ :: _ => false
  | fuel + 1, '%' :: ps, t =>
    likeMatchGo fuel ps t ||
      (match t with
       | [] => false
       | _ :: ts => likeMatchGo fuel ('%' :: ps) ts)
  | fuel + 1, '_' :: ps, t =>
    (match t with
     | [] => false
     | _ :: ts => likeMatchGo fuel ps ts)
  | _ + 1, _ :: _, [] => false
  | fuel + 1, p :: ps, c :: ts => likeCharEq p c && likeMatchGo fuel ps ts

/-- SQLite `LIKE` pattern matching entry point; each recursive step shortens
the pattern or the text, so `|p| + |t| + 1` steps always suffice. -/
def likeMatch (p t : Str) : Bool := likeMatchGo (p.length + t.length + 1) p t

/-- Lexicographic comparison by character code: the BINARY collation SQLite
uses for `i.date >= ?` / `i.date <= ?`. -/
def strLe : Str → Str → Bool
  | [], _ => true
  | _ :: _, [] => false
  | a :: as, b :: bs =>
    if a.toNat < b.toNat then true
    else if b.toNat < a.toNat then false
    else strLe as bs

/-- JS whitespace stripped by `String.prototype.trim` (ASCII forms plus the
common Unicode ones). -/
def jsWhite (c : Char) : Bool :=
  decide (c = ' ' ∨ c = '\t' ∨ c = '\n' ∨ c = '\r' ∨ c = '\x0B' ∨ c = '\x0C' ∨
    c = '\u00A0' ∨ c = '\uFEFF')

/-- JS `String.prototype.trim`. -/
def jsTrim (s : Str) : Str :=
  ((s.dropWhile jsWhite).reverse.dropWhile jsWhite).reverse

/-- JS regex `.`: any character except a line terminator. -/
def jsDot (c : Char) : Bool :=
  decide (c ≠ '\n' ∧ c ≠ '\r' ∧ c ≠ '\u2028' ∧ c ≠ '\u2029')

/-- Minimal regex AST covering the patterns of `stripColors`: single-character
classes, sequencing, ordered alternation and greedy/lazy stars. -/
inductive RE where
  | eps : RE
  | chr (p : Char → Bool) : RE
  | seq (a b : RE) : RE
  | alt (a b : RE) : RE
  | star (r : RE) (greedy : Bool) : RE

/-- Structural size, used to pick a sufficient fuel for the matcher. -/
def RE.size : RE → Nat
  | .eps => 1
  | .chr _ => 1
  | .seq a b => a.size + b.size + 1
  | .alt a b => a.size + b.size + 1
  | .star r _ => r.size + 2

/-- Backtracking matcher in continuation-passing style with JavaScript
semantics: `alt` tries the left branch first, a greedy `star` prefers one more
iteration, a lazy one prefers none, and an iteration must consume input (JS
stops repeating a quantified group once it matches empty).  `fuel` bounds the
search depth; the fuel supplied by `reRun` is ample for the fixed regexes and
inputs used here. -/
def reMatch (fuel : Nat) (r : RE) (s : Str) (k : Str → Option Nat) : Option Nat :=
  match fuel with
  | 0 => none
  | fuel + 1 =>
    match r with
    | .eps => k s
    | .chr p =>
      match s with
      | [] => none
      | c :: rest => if p c then k rest else none
    | .seq a b => reMatch fuel a s (fun s' => reMatch fuel b s' k)
    | .alt a b => (reMatch fuel a s k).orElse (fun _ => reMatch fuel b s k)
    | .star r greedy =>
      let once := fun (_ : Unit) =>
        reMatch fuel r s (fun s' =>
          if s'.length < s.length then reMatch fuel (.star r greedy) s' k else none)
      if greedy then (once ()).orElse (fun _ => k s) else (k s).orElse once

/-- Match `r` at the start of `s`, returning the number of characters the
first (per JS backtracking order) match consumes. -/
def reRun (r : RE) (s : Str) : Option Nat :=
  reMatch ((s.length + 1) * (r.size + 2)) r s (fun rest => some (s.length - rest.length))

/-- JS `String.replace(re, '')` with the `g` flag: delete the leftmost match
and resume after it.  Every regex used here consumes at least one character
(each starts with a character class), so a `some 0` answer cannot occur; it is
treated as no match. -/
def replGo (m : Str → Option Nat) : Nat → Str → Str
  | 0, _ => []
  | _ + 1, [] => []
  | fuel + 1, c :: rest =>
    match m (c :: rest) with
    | some (k + 1) => replGo m fuel (rest.drop k)
    | _ => c :: replGo m fuel rest

/-- Entry point of the global replace; each step removes at least one
character, so a fuel of the string length suffices. -/
def replaceAllEmpty (m : Str → Option Nat) (s : Str) : Str := replGo m s.length s

/-- Class `[0-9]`. -/
def isDigit (c : Char) : Bool := decide ('0' ≤ c ∧ c ≤ '9')

/-- Single-character regex for an exact character. -/
def chrEq (a : Char) : RE := .chr (fun c => decide (c = a))

/-- The escape byte `\x1B`. -/
def escC : RE := chrEq '\x1B'

/-- Digit class as a regex. -/
def digitC : RE := .chr isDigit

/-- Greedy `?`. -/
def reOpt (r : RE) : RE := .alt r .eps

/-- Source regex 1, `/\x1B\[[0-9;]*[a-zA-Z]/g` (ANSI color/style). -/
def reAnsiColor : RE :=
  .seq escC (.seq (chrEq '[')
    (.seq (.star (.chr (fun c => isDigit c || decide (c = ';'))) true)
      (.chr (fun c => decide (('a' ≤ c ∧ c ≤ 'z') ∨ ('A' ≤ c ∧ c ≤ 'Z'))))))

/-- Source regex 2, `/\x1B\][0-9];.*?\x07/g` (OSC escape sequences). -/
def reOsc1 : RE :=
  .seq escC (.seq (chrEq ']') (.seq digitC (.seq (chrEq ';')
    (.seq (.star (.chr jsDot) false) (chrEq '\x07')))))

/-- Source regex 3, `/\x1B\][0-9].*;.*?(\x1B\\|\x07)/g` (OSC alternate form). -/
def reOsc2 : RE :=
  .seq escC (.seq (chrEq ']') (.seq digitC (.seq (.star (.chr jsDot) true)
    (.seq (chrEq ';') (.seq (.star (.chr jsDot) false)
      (.alt (.seq escC (chrEq '\\')) (chrEq '\x07')))))))

/-- Source regex 4, `/\x1B[@-Z\\-_]/g` (single-character ANSI escapes; the
class is `0x40`–`0x5A` together with `0x5C`–`0x5F`). -/
def reEsc1 : RE :=
  .seq escC (.chr (fun c => decide (('@' ≤ c ∧ c ≤ 'Z') ∨ ('\\' ≤ c ∧ c ≤ '_'))))

/-- Final character class of source regex 5, `[0-9A-ORZcf-nqry=><]`. -/
def csiFinal (c : Char) : Bool :=
  isDigit c || decide (('A' ≤ c ∧ c ≤ 'O') ∨ c = 'R' ∨ c = 'Z' ∨ c = 'c' ∨
    ('f' ≤ c ∧ c ≤ 'n') ∨ c = 'q' ∨ c = 'r' ∨ c = 'y' ∨ c = '=' ∨ c = '>' ∨ c = '<')

/-- Source regex 5,
`/\x1B[[\]()#;?]*(?:[0-9]{1,4}(?:;[0-9]{0,4})*)?[0-9A-ORZcf-nqry=><]/g`
(general ANSI sequences); `{1,4}` and `{0,4}` are unrolled with greedy
preference for more repetitions. -/
def reCsi : RE :=
  let d14 : RE := .seq digitC (reOpt (.seq digitC (reOpt (.seq digitC (reOpt digitC)))))
  let d04 : RE :=
    reOpt (.seq digitC (reOpt (.seq digitC (reOpt (.seq digitC (reOpt digitC))))))
  let numGroup : RE := .seq d14 (.star (.seq (chrEq ';') d04) true)
  .seq escC (.seq
    (.star (.chr (fun c =>
      decide (c = '[' ∨ c = ']' ∨ c = '(' ∨ c = ')' ∨ c = '#' ∨ c = ';' ∨ c = '?'))) true)
    (.seq (reOpt numGroup) (.chr csiFinal)))

/-- Character class of source regex 6, `/[\x00-\x08\x0B-\x1F\x7F-\x9F]/g`
(raw control bytes; note it contains `\x1B` and `\x0D`). -/
def ctrlChar (c : Char) : Bool :=
  decide (c.toNat ≤ 8 ∨ (11 ≤ c.toNat ∧ c.toNat ≤ 31) ∨ (127 ≤ c.toNat ∧ c.toNat ≤ 159))

/-- Matcher for regex 6; a single-character class matches exactly one char. -/
def matchCtrl : Str → Option Nat
  | [] => none
  | c :: _ => if ctrlChar c then some 1 else none

/-- Matcher for source regex 7, `/\r/g`. -/
def matchCR : Str → Option Nat
  | [] => none
  | c :: _ => if c = '\r' then some 1 else none

/-- `stripColors` from `src/utils/indexer/file-processor.js`: the seven global
replaces in source order.  The JS guard `if (!text) return ''` coincides with
the pipeline on the empty string. -/
def stripColors (text : Str) : Str :=
  ((((((replaceAllEmpty (reRun reAnsiColor) text
    |> replaceAllEmpty (reRun reOsc1))
    |> replaceAllEmpty (reRun reOsc2))
    |> replaceAllEmpty (reRun reEsc1))
    |> replaceAllEmpty (reRun reCsi))
    |> replaceAllEmpty matchCtrl)
    |> replaceAllEmpty matchCR)

/-- Read exactly `n` digits. -/
def takeDigits : Nat → Str → Option (Str × Str)
  | 0, s => some ([], s)
  | _ + 1, [] => none
  | n + 1, c :: rest =>
    if isDigit c then (takeDigits n rest).map (fun p => (c :: p.1, p.2)) else none

/-- Consume one expected character. -/
def expectChar (c : Char) : Str → Option Str
  | [] => none
  | a :: rest => if a = c then some rest else none

/-- Consume an expected literal. -/
def dropLit (lit s : Str) : Option Str :=
  if lookingAt s lit then some (s.drop lit.length) else none

/-- The raw capture groups of the filename regex
`/asciinema_(\d{4}-\d{2}-\d{2})_(\d{2}-\d{2}-\d{2})(?:_tags_([^.]+))?\.cast/`:
the six digit groups and the optional third capture group. -/
structure ParsedRaw where
  yS : Str
  moS : Str
  dS : Str
  hS : Str
  miS : Str
  sS : Str
  tagsRaw : Option Str
deriving DecidableEq

/-- Three digit groups of widths `a`, `b`, `c` separated by dashes. -/
def matchTriple (a b c : Nat) (s : Str) : Option ((Str × Str × Str) × Str) := do
  let (g1, s) ← takeDigits a s
  let s ← expectChar '-' s
  let (g2, s) ← takeDigits b s
  let s ← expectChar '-' s
  let (g3, s) ← takeDigits c s
  pure ((g1, g2, g3), s)

/-- Tail of the filename regex, `(?:_tags_([^.]+))?\.cast`: the optional group
is tried first (greedy `?`); `[^.]+` is a greedy run of non-dots, after which
`\.cast` must follow literally (no backtracking into the run is possible
because its characters can never satisfy `\.`). -/
def tryTagsAndCast (s : Str) : Option (Option Str) :=
  (match dropLit (str "_tags_") s with
   | some rest =>
     let run := rest.takeWhile (fun c => decide (c ≠ '.'))
     if run.isEmpty then none
     else
       match dropLit (str ".cast") (rest.drop run.length) with
       | some _ => some (some run)
       | none => none
   | none => none).orElse
    (fun _ =>
      match dropLit (str ".cast") s with
      | some _ => some none
      | none => none)

/-- Attempt the filename regex at the current position. -/
def tryMatchAt (s : Str) : Option ParsedRaw := do
  let s ← dropLit (str "asciinema_") s
  let (dg, s) ← matchTriple 4 2 2 s
  let s ← expectChar '_' s
  let (tg, s) ← matchTriple 2 2 2 s
  let tagsRaw ← tryTagsAndCast s
  pure ⟨dg.1, dg.2.1, dg.2.2, tg.1, tg.2.1, tg.2.2, tagsRaw⟩

/-- Unanchored JS `String.match`: leftmost position wins. -/
def scanMatch : Str → Option ParsedRaw
  | [] => none
  | c :: rest => (tryMatchAt (c :: rest)).orElse (fun _ => scanMatch rest)

/-- JS `String.split` on a single-character separator. -/
def splitOnAux (sep : Char) : Str → Str → List Str
  | [], acc => [acc.reverse]
  | c :: rest, acc =>
    if c = sep then acc.reverse :: splitOnAux sep rest []
    else splitOnAux sep rest (c :: acc)

/-- JS `String.split(sep)` (note `"".split(sep) = [""]`). -/
def splitOnChar (sep : Char) (s : Str) : List Str := splitOnAux sep s []

/-- JS `Array.join(sep)`. -/
def joinSep (sep : Str) : List Str → Str
  | [] => []
  | [t] => t
  | t :: rest => t ++ sep ++ joinSep sep rest

/-- Decimal value of a digit string. -/
def digitsToNat (ds : Str) : Nat := ds.foldl (fun n c => n * 10 + (c.toNat - 48)) 0

/-- Days since 1970-01-01 of a proleptic-Gregorian civil date (standard
era/year-of-era computation). -/
def daysFromCivil (y m d : Int) : Int :=
  let yy := if m ≤ 2 then y - 1 else y
  let era := Int.fdiv yy 400
  let yoe := yy - era * 400
  let mp := Int.emod (m + 9) 12
  let doy := Int.fdiv (153 * mp + 2) 5 + d - 1
  let doe := yoe * 365 + Int.fdiv yoe 4 - Int.fdiv yoe 100 + doy
  era * 146097 + doe - 719468

/-- Millisecond timestamp of `new Date("YYYY-MM-DDTHH:MM:SS").getTime()`.
The host timezone is modelled as UTC, and calendar-invalid component values
(which JS maps to an Invalid Date / `NaN`) are not distinguished; no claim
depends on the numeric value, only on its presence. -/
def timestampOfParts (y mo d hh mi ss : Nat) : Int :=
  daysFromCivil y mo d * 86400000 + (hh * 3600000 + mi * 60000 + ss * 1000)

/-- Parse result of `parseFilenameDate` from `src/utils/parseFilename.js`. -/
structure ParsedInfo where
  date : Str
  time : Str
  timestampMs : Int
  tags : List Str
  tagsString : Str
deriving DecidableEq

/-- `parseFilenameDate(filename)`: runs the filename regex; on a match,
derives the date string, the time string with `-` replaced by `:`, the
`Date.getTime()` timestamp, the dash-separated tag list (trimmed, empties
removed) and the `", "`-joined tag string; returns `null` on no match. -/
def parseFilenameDate (filename : Str) : Option ParsedInfo :=
  match scanMatch filename with
  | none => none
  | some raw =>
    let tags : List Str :=
      match raw.tagsRaw with
      | some r => ((splitOnChar '-' r).map jsTrim).filter (fun t => decide (t ≠ []))
      | none => []
    some
      { date := raw.yS ++ '-' :: raw.moS ++ '-' :: raw.dS
      , time := raw.hS ++ ':' :: raw.miS ++ ':' :: raw.sS
      , timestampMs :=
          timestampOfParts (digitsToNat raw.yS) (digitsToNat raw.moS) (digitsToNat raw.dS)
            (digitsToNat raw.hS) (digitsToNat raw.miS) (digitsToNat raw.sS)
      , tags := tags
      , tagsString := if tags.length > 0 then joinSep (str ", ") tags else [] }

/-!  ## Data model: the SQLite store  -/

/-- One row of `indexed_files` (the Artifact Catalog). -/
structure FileRec where
  id : Nat
  path : Str
  filename : Str
  date : Option Str
  time : Option Str
  timestamp : Option Int
  fileSize : Option Int
  fileMtime : Option Int
  indexedAt : Option Int
  completed : Bool
deriving DecidableEq

/-- One row of `indexing_strategies` (the Strategy Application table). -/
structure StratRec where
  fileId : Nat
  strategyId : Str
  strategyVersion : Str
  completedAt : Option Int
deriving DecidableEq

/-- One row of the `cast_content` FTS5 table (a Content Fragment).  The
`timeOffset` of an asciinema event is a decimal number of seconds; only its
ordering matters here, so it is modelled as an integer. -/
structure Fragment where
  content : Str
  fileId : Nat
  timestamp : Option Int
  timeOffset : Int
  tags : Str
deriving DecidableEq

/-- The whole SQLite database.  `nextId` models the AUTOINCREMENT counter of
`indexed_files`. -/
structure DbState where
  nextId : Nat
  files : List FileRec
  strategies : List StratRec
  fragments : List Fragment
  versions : List (Str × Str)
deriving DecidableEq

/-- Live `fs.stat` result, reduced to the fields the code uses.  `mtime`
models the JS expression `fileInfo.mtimeMs || (fileInfo.mtime ?
fileInfo.mtime.getTime() : null)`; `none` stands for an unavailable (or
JS-falsy) modification time. -/
structure FileStats where
  size : Int
  mtime : Option Int
deriving DecidableEq

/-- A strategy definition from the configuration. -/
structure Strategy where
  id : Str
  name : Str
  version : Str
deriving DecidableEq

/-- The indexer configuration (`index-config.json`). -/
structure Config where
  version : Str
  currentStrategies : List Str
  indexStrategies : List Strategy

/-- A discovered cast file. -/
structure FileEntry where
  path : Str
  isGzipped : Bool
deriving DecidableEq

/-- Key of the schema version marker. -/
def schemaKey : Str := str "schema_version"

/-- Key of the indexer version marker. -/
def indexerKey : Str := str "indexer_version"

/-- Lookup of `indexed_files` by `file_path`. -/
def findFile (db : DbState) (p : Str) : Option FileRec :=
  db.files.find? (fun r => decide (r.path = p))

/-- Lookup of `indexed_files` by `id`. -/
def findFileById (db : DbState) (i : Nat) : Option FileRec :=
  db.files.find? (fun r => decide (r.id = i))

/-- Lookup of `indexing_strategies` by its unique key. -/
def findStrat (db : DbState) (fileId : Nat) (sid sver : Str) : Option StratRec :=
  db.strategies.find? (fun s =>
    decide (s.fileId = fileId ∧ s.strategyId = sid ∧ s.strategyVersion = sver))

/-- `getVersion(db, key)`. -/
def getVersion (db : DbState) (key : Str) : Option Str :=
  (db.versions.find? (fun kv => decide (kv.1 = key))).map (fun kv => kv.2)

/-- `setVersion(db, key, value)`: `INSERT OR REPLACE` on the `version` table
(the conflicting row is deleted, the new one appended). -/
def setVersion (db : DbState) (key value : Str) : DbState :=
  { db with versions := (db.versions.filter (fun kv => decide (kv.1 ≠ key))) ++ [(key, value)] }

/-- Truthiness of a JS string-or-null value (`null`, `undefined` and `''` are
falsy). -/
def jsStrFalsy (o : Option Str) : Bool :=
  match o with
  | none => true
  | some v => decide (v = [])

/-- `applyMigrations(db, currentVersion)`: the only migration adds the
`file_mtime` column (already part of the modelled record type) and bumps the
schema version to 1.1.0. -/
def applyMigrations (db : DbState) (currentVersion : Str) : DbState :=
  if currentVersion = str "0.0.0" ∨ currentVersion = str "1.0.0" then
    setVersion db schemaKey (str "1.1.0")
  else db

/-- `initDatabase(db)`: table creation is a no-op on the model; the initial
schema version is recorded when absent and migrations are applied against the
version read at entry (`getVersion(db,'schema_version') || '0.0.0'`). -/
def initDatabase (db : DbState) : DbState :=
  let schemaVersion : Str :=
    match getVersion db schemaKey with
    | some v => if v = [] then str "0.0.0" else v
    | none => str "0.0.0"
  let db1 := if schemaVersion = str "0.0.0" then setVersion db schemaKey (str "1.0.0") else db
  applyMigrations db1 schemaVersion

/-- The unchanged test of `registerFile`: `existing.file_size ===
fileInfo.size && fileModifiedTime && existing.file_mtime && fileModifiedTime
<= existing.file_mtime`. -/
def unchangedCheck (existing : FileRec) (st : FileStats) : Bool :=
  decide (existing.fileSize = some st.size) &&
    st.mtime.isSome && existing.fileMtime.isSome &&
    decide (st.mtime.getD 0 ≤ existing.fileMtime.getD 0)

/-- `registerFile(db, filePath, filename, fileInfo)`: look up by path; when
present and unchanged return the stored id untouched, when present and
changed update the stats in place and reset `completed`; when absent insert a
fresh row whose date/time/timestamp fields come from `parseFilenameDate`.
`now` is the `Date.now()` value of this call. -/
def registerFile (db : DbState) (now : Int) (filePath filename : Str) (st : FileStats) :
    Nat × DbState :=
  match findFile db filePath with
  | some existing =>
    if unchangedCheck existing st then (existing.id, db)
    else
      (existing.id,
       { db with files := db.files.map (fun r =>
           if r.id = existing.id then
             { r with fileSize := some st.size, fileMtime := st.mtime,
                      indexedAt := some now, completed := false }
           else r) })
  | none =>
    let parsed := parseFilenameDate filename
    let rec0 : FileRec :=
      { id := db.nextId, path := filePath, filename := filename
      , date := parsed.map (fun p => p.date), time := parsed.map (fun p => p.time)
      , timestamp := parsed.map (fun p => p.timestampMs)
      , fileSize := some st.size, fileMtime := st.mtime
      , indexedAt := some now, completed := false }
    (db.nextId, { db with nextId := db.nextId + 1, files := db.files ++ [rec0] })

/-- `isFileIndexed(db, fileId, strategyId, strategyVersion)`: the file row
must be marked completed and the exact strategy application row must carry a
non-null completion timestamp. -/
def isFileIndexed (db : DbState) (fileId : Nat) (strategyId strategyVersion : Str) : Bool :=
  match findFileById db fileId with
  | none => false
  | some fileRow =>
    if fileRow.completed = false then false
    else
      match findStrat db fileId strategyId strategyVersion with
      | some srow => srow.completedAt.isSome
      | none => false

/-- `markStrategyCompleted`: `INSERT OR REPLACE` keyed by
`(file_id, strategy_id, strategy_version)` with `completed_at = Date.now()`. -/
def markStrategyCompleted (db : DbState) (fileId : Nat) (sid sver : Str) (now : Int) :
    DbState :=
  { db with strategies :=
      (db.strategies.filter (fun s =>
        decide (¬(s.fileId = fileId ∧ s.strategyId = sid ∧ s.strategyVersion = sver)))) ++
      [{ fileId := fileId, strategyId := sid, strategyVersion := sver, completedAt := some now }] }

/-- `markFileCompleted`: `UPDATE indexed_files SET completed = 1 WHERE id = ?`. -/
def markFileCompleted (db : DbState) (fileId : Nat) : DbState :=
  { db with files := db.files.map (fun r =>
      if r.id = fileId then { r with completed := true } else r) }

/-- `clearPartialIndexing`: `DELETE FROM cast_content WHERE file_id = ?`. -/
def clearPartialIndexing (db : DbState) (fileId : Nat) : DbState :=
  { db with fragments := db.fragments.filter (fun c => decide (c.fileId ≠ fileId)) }

/-!  ## The transactional indexer  -/

/-- One parsed line of a cast file, as the indexing loop sees it: `event` is
a JSON array of length at least 3 whose third element is a (possibly empty)
string — the loop reads elements 0 (time offset), 1 (channel) and 2 (payload)
— while `skip` is any other line (not an array, or fewer than three
elements), which the loop ignores.  Event time offsets are decimal seconds in
JS; only their ordering matters here, so they are integers. -/
inductive CastEvent where
  | event (timeOffset : Int) (chan : Str) (payload : Str) : CastEvent
  | skip : CastEvent
deriving DecidableEq

/-- The fragment-insertion loop of `indexCastFile`: events are processed from
index 1 on (index 0 is the header), a falsy (empty) payload is skipped,
colors are stripped, and a payload whose stripped form is blank
(`!content.trim()`) is skipped; each surviving event inserts one row into
`cast_content`. -/
def eventFragments (fileId : Nat) (fileTimestamp : Option Int) (tagsString : Str)
    (events : List CastEvent) : List Fragment :=
  (events.drop 1).filterMap (fun e =>
    match e with
    | .event t _ payload =>
      if payload = [] then none
      else
        let stripped := stripColors payload
        if jsTrim stripped = [] then none
        else some { content := stripped, fileId := fileId, timestamp := fileTimestamp
                  , timeOffset := t, tags := tagsString }
    | .skip => none)

/-- The tag string `indexCastFile` derives for the fragments:
`parsedInfo && parsedInfo.tags.length ? parsedInfo.tagsString : ''`. -/
def tagsStringOf (parsed : Option ParsedInfo) : Str :=
  match parsed with
  | some p => if p.tags.length > 0 then p.tagsString else []
  | none => []

/-- The steps of the per-artifact transaction at which an injected exception
can be raised (SQLite errors at the statements, or load errors). -/
inductive Step where
  | register : Step
  | clear : Step
  | extract : Step
  | insert : Step
  | markStrategy : Step
  | markFile : Step
deriving DecidableEq

/-- The file system as the indexer sees it: `stats` is `fs.stat` (`none`
means the call throws) and `events` is the parsed event list produced by
`loadGzippedCastFile`/`loadPlainCastFile` (`none` means loading throws;
individually malformed lines are already `CastEvent.skip` entries). -/
structure Env where
  stats : Str → Option FileStats
  events : Str → Option (List CastEvent)

/-- The modification re-check of `indexCastFile` against the (re)registered
catalog row: `!fileInfo`, a size difference, an unavailable fingerprint on
either side, or a live fingerprint newer than the stored one all count as
modified. -/
def isModifiedCheck (fileInfo : Option FileRec) (st : FileStats) : Bool :=
  match fileInfo with
  | none => true
  | some fi =>
    decide (fi.fileSize ≠ some st.size) || st.mtime.isNone || fi.fileMtime.isNone ||
      decide (fi.fileMtime.getD 0 < st.mtime.getD 0)

/-- Body of the per-artifact transaction of `indexCastFile`, from `BEGIN
TRANSACTION` to `COMMIT`.  `Except.error` means an exception was raised
inside the transaction; the `fault` argument injects an exception at a chosen
step (an insert fault models a throw during the insertion loop: every insert
of the transaction is rolled back either way).  On success it returns the
committed state and the number of committed fragment inserts. -/
def indexCastFileTx (env : Env) (fault : Option Step) (now : Int) (db : DbState)
    (filePath filename : Str) (strategy : Strategy) (st : FileStats) :
    Except Unit (Bool × DbState × Nat) :=
  if fault = some Step.register then .error () else
  let reg := registerFile db now filePath filename st
  let fileId := reg.1
  let db1 := reg.2
  let isModified : Bool := isModifiedCheck (findFileById db1 fileId) st
  if isFileIndexed db1 fileId strategy.id strategy.version && !isModified then
    .ok (true, db1, 0)
  else
    if fault = some Step.clear then .error () else
    let db2 := clearPartialIndexing db1 fileId
    match env.events filePath with
    | none => .error ()
    | some events =>
      if fault = some Step.extract then .error () else
      let parsed := parseFilenameDate filename
      let tagsString : Str := tagsStringOf parsed
      let fileTimestamp : Option Int := parsed.map (fun p => p.timestampMs)
      if fault = some Step.insert then .error () else
      let frags := eventFragments fileId fileTimestamp tagsString events
      let db3 := { db2 with fragments := db2.fragments ++ frags }
      if fault = some Step.markStrategy then .error () else
      let db4 := markStrategyCompleted db3 fileId strategy.id strategy.version now
      if fault = some Step.markFile then .error () else
      let db5 := markFileCompleted db4 fileId
      .ok (true, db5, frags.length)

/-- The filename `indexCastFile` derives: the basename, with `.gz` removed
for a gzipped file. -/
def entryFilename (e : FileEntry) : Str :=
  if e.isGzipped then dropSuffix (basename e.path) (str ".gz") else basename e.path

/-- `indexCastFile(database, filePath, strategy, isGzipped)`: stat the file
(a stat failure happens before the transaction and yields `false` with the
state untouched), run the transaction body, commit on success, and on any
exception roll back to the state at `BEGIN` and report `false` instead of
propagating. -/
def indexCastFile (env : Env) (fault : Option Step) (now : Int) (db : DbState)
    (e : FileEntry) (strategy : Strategy) : Bool × DbState × Nat :=
  match env.stats e.path with
  | none => (false, db, 0)
  | some st =>
    match indexCastFileTx env fault now db e.path (entryFilename e) strategy st with
    | .ok r => r
    | .error _ => (false, db, 0)

/-- The inner loop of `indexCastFiles`: process every discovered file with
one strategy, accumulating the committed fragment-insert count; a failed file
never aborts the loop. -/
def processFiles (env : Env) (faults : Str → Str → Option Step) (now : Int)
    (strategy : Strategy) : DbState × Nat → List FileEntry → DbState × Nat
  | acc, [] => acc
  | (db, n), e :: rest =>
    let r := indexCastFile env (faults e.path strategy.id) now db e strategy
    processFiles env faults now strategy (r.2.1, n + r.2.2) rest

/-- The outer loop of `indexCastFiles`: resolve each active strategy id
against the declared catalog (unknown ids are logged and skipped) and run the
file loop. -/
def runStrategies (env : Env) (faults : Str → Str → Option Step) (now : Int)
    (config : Config) (castFiles : List FileEntry) :
    DbState × Nat → List Str → DbState × Nat
  | acc, [] => acc
  | acc, sid :: rest =>
    match config.indexStrategies.find? (fun s => decide (s.id = sid)) with
    | none => runStrategies env faults now config castFiles acc rest
    | some strategy =>
      runStrategies env faults now config castFiles
        (processFiles env faults now strategy acc castFiles) rest

/-- `indexCastFiles`: initialise the schema, record the schema and indexer
version markers, then process every `(strategy, file)` pair.  Returns the
final state and the total number of committed fragment inserts of the run. -/
def indexCastFiles (env : Env) (faults : Str → Str → Option Step) (now : Int)
    (config : Config) (castFiles : List FileEntry) (db0 : DbState) : DbState × Nat :=
  let db := initDatabase db0
  let db := if jsStrFalsy (getVersion db schemaKey) then setVersion db schemaKey (str "1.0.0") else db
  let db := setVersion db indexerKey config.version
  runStrategies env faults now config castFiles (db, 0) config.currentStrategies

/-- Directory of plain cast files (`CASTS_DIR`). -/
def castsDirPath : Str := str "public/casts"

/-- Directory of gzipped cast files (`ZIP_DIR`). -/
def zipDirPath : Str := str "public/casts/zip"

/-- `findAllCastFiles()`: plain `.cast` files (excluding `.cast.plain`) from
the casts directory and `.cast.gz` files from the zip directory; an
unreadable directory (`none`) contributes zero files. -/
def findAllCastFiles (castsDirList zipDirList : Option (List Str)) : List FileEntry :=
  let plain : List FileEntry :=
    match castsDirList with
    | none => []
    | some files =>
      (files.filter (fun f => endsWith f (str ".cast") && !containsSub f (str ".cast.plain"))).map
        (fun f => { path := castsDirPath ++ '/' :: f, isGzipped := false })
  let gz : List FileEntry :=
    match zipDirList with
    | none => []
    | some files =>
      (files.filter (fun f => endsWith f (str ".cast.gz"))).map
        (fun f => { path := zipDirPath ++ '/' :: f, isGzipped := true })
  plain ++ gz

/-!  ## The query engine  -/

/-- Options of `searchCasts`, with the source's destructuring defaults. -/
structure SearchOptions where
  tags : List Str := []
  dateFrom : Option Str := none
  dateTo : Option Str := none
  limit : Int := 50
  offset : Int := 0
  timeWindow : Int := 10

/-- The WHERE clause of both search queries on one joined row: the FTS5
`MATCH` predicate (supplied abstractly — it is SQLite's tokeniser, not this
repository's code), `i.completed = 1`, the optional tag OR-filter
(`c.tags LIKE '%tag%'`), and the inclusive date bounds (a NULL date fails a
bound, as in SQL three-valued logic). -/
def whereClause (ftsMatch : Str → Str → Bool) (q : Str) (opts : SearchOptions)
    (c : Fragment) (i : FileRec) : Bool :=
  ftsMatch q c.content && decide (i.completed = true) &&
  (if opts.tags.isEmpty then true
   else opts.tags.any (fun t => likeMatch ('%' :: t ++ ['%']) c.tags)) &&
  (match opts.dateFrom with
   | none => true
   | some dF =>
     match i.date with
     | none => false
     | some d => strLe dF d) &&
  (match opts.dateTo with
   | none => true
   | some dT =>
     match i.date with
     | none => false
     | some d => strLe d dT)

/-- `cast_content c JOIN indexed_files i ON c.file_id = i.id` filtered by the
WHERE clause. -/
def searchMatches (ftsMatch : Str → Str → Bool) (db : DbState) (q : Str)
    (opts : SearchOptions) : List (Fragment × FileRec) :=
  (db.fragments.flatMap (fun c =>
    (db.files.filter (fun i => decide (c.fileId = i.id))).map (fun i => (c, i)))).filter
    (fun ci => whereClause ftsMatch q opts ci.1 ci.2)

/-- Descending comparison on nullable timestamps: SQLite sorts NULL as the
smallest value, so `ORDER BY timestamp DESC` puts NULL rows last. -/
def tsGe : Option Int → Option Int → Bool
  | _, none => true
  | none, some _ => false
  | some a, some b => decide (b ≤ a)

/-- Stable insertion into a sorted list: `le a b` means `a` may precede `b`,
and must hold for ties so that earlier elements stay first. -/
def insertBy (le : α → α → Bool) (a : α) : List α → List α
  | [] => [a]
  | b :: l => if le a b then a :: b :: l else b :: insertBy le a l

/-- Stable insertion sort. -/
def sortBy (le : α → α → Bool) : List α → List α
  | [] => []
  | x :: xs => insertBy le x (sortBy le xs)

/-- Comparator of the window query: `ORDER BY i.timestamp DESC`. -/
def wLe (a b : Fragment × FileRec) : Bool := tsGe a.2.timestamp b.2.timestamp

/-- Comparator of the plain query: `ORDER BY i.timestamp DESC,
c.time_offset ASC`. -/
def plainLe (a b : Fragment × FileRec) : Bool :=
  if a.2.timestamp = b.2.timestamp then decide (a.1.timeOffset ≤ b.1.timeOffset)
  else tsGe a.2.timestamp b.2.timestamp

/-- `timeWindow * 60 * 1000`. -/
def windowMsOf (timeWindow : Int) : Int := timeWindow * 60 * 1000

/-- The window-bucket expression `(i.timestamp / windowMs)`: SQLite integer
division truncates toward zero, and a NULL timestamp gives the NULL bucket
(all NULL rows form one partition). -/
def bucketOf (w : Int) (ci : Fragment × FileRec) : Option Int :=
  ci.2.timestamp.map (fun ts => Int.tdiv ts w)

/-- Keep the first element of each bucket from an already-sorted list;
`seen` accumulates the buckets already represented. -/
def keepFirstBy {α : Type} (bk : α → Option Int) :
    List α → List (Option Int) → List α
  | [], _ => []
  | x :: xs, seen =>
    if bk x ∈ seen then keepFirstBy bk xs seen
    else x :: keepFirstBy bk xs (bk x :: seen)

/-- The window query: `ROW_NUMBER() OVER (PARTITION BY (timestamp/windowMs)
ORDER BY timestamp DESC)` filtered to `row_num = 1`, then `ORDER BY timestamp
DESC` — equivalently, sort all matches by timestamp descending (stably) and
keep the first row of each bucket, which inherits the descending order. -/
def windowDedup (w : Int) (ms : List (Fragment × FileRec)) : List (Fragment × FileRec) :=
  keepFirstBy (bucketOf w) (sortBy wLe ms) []

/-- One row of the SELECT projection shared by both queries. -/
structure ResultRow where
  snippet : Str
  timeOffset : Int
  filePath : Str
  filename : Str
  date : Option Str
  time : Option Str
  tags : Str
deriving DecidableEq

/-- Column projection of both queries. -/
def projectRow (ci : Fragment × FileRec) : ResultRow :=
  { snippet := ci.1.content, timeOffset := ci.1.timeOffset, filePath := ci.2.path
  , filename := ci.2.filename, date := ci.2.date, time := ci.2.time, tags := ci.1.tags }

/-- SQLite `LIMIT ? OFFSET ?`: a negative limit means no limit, a negative
offset means no skip. -/
def sqlSlice (limit offset : Int) (l : List α) : List α :=
  let l' := l.drop offset.toNat
  if limit < 0 then l' else l'.take limit.toNat

/-- Return value of `searchCasts`. -/
structure SearchResult where
  results : List ResultRow
  total : Nat
deriving DecidableEq

/-- The filtered, deduplicated, ordered match list both the count query and
the paged query are built from. -/
def orderedMatches (ftsMatch : Str → Str → Bool) (db : DbState) (q : Str)
    (opts : SearchOptions) : List (Fragment × FileRec) :=
  let ms := searchMatches ftsMatch db q opts
  if opts.timeWindow > 0 then windowDedup (windowMsOf opts.timeWindow) ms
  else sortBy plainLe ms

/-- `searchCasts(query, options)`: `total` is `COUNT(*)` over the full query
without LIMIT/OFFSET; `results` is the sliced projection. -/
def searchCasts (ftsMatch : Str → Str → Bool) (db : DbState) (q : Str)
    (opts : SearchOptions) : SearchResult :=
  let km := orderedMatches ftsMatch db q opts
  { results := (sqlSlice opts.limit opts.offset km).map projectRow
  , total := km.length }

/-!  ## The `/api/search` handler  -/

/-- JS `parseInt(x, 10) || d` (and `x || d` for integer-valued `x`): absent,
NaN and 0 fall back to the default. -/
def jsOrInt (o : Option Int) (d : Int) : Int :=
  match o with
  | none => d
  | some v => if v = 0 then d else v

/-- Body of a `/api/search` request; `none` marks an absent (or non-numeric)
field. -/
structure ApiRequest where
  query : Str
  tags : Option (List Str) := none
  dateFrom : Option Str := none
  dateTo : Option Str := none
  limit : Option Int := none
  timeWindow : Option Int := none
  page : Option Int := none

/-- One formatted row of the handler's response.  The purely presentational
`timeFormatted` and `playUrl` strings are not modelled. -/
structure FormattedResult where
  snippet : Str
  filename : Str
  date : Option Str
  time : Option Str
  timeOffset : Int
  tags : List Str
deriving DecidableEq

/-- Split on a multi-character separator (JS `String.split(', ')`); each step
consumes at least one character, so a fuel of the string length suffices. -/
def splitOnStrGo (sep : Str) : Nat → Str → Str → List Str
  | _, [], acc => [acc.reverse]
  | 0, s, acc => [acc.reverse ++ s]
  | fuel + 1, c :: rest, acc =>
    if lookingAt (c :: rest) sep then
      acc.reverse :: splitOnStrGo sep fuel ((c :: rest).drop sep.length) []
    else splitOnStrGo sep fuel rest (c :: acc)

/-- Entry point of the multi-character split. -/
def splitOnStr (sep s : Str) : List Str := splitOnStrGo sep s.length s []

/-- Formatting of one search row by the handler (`tags ? tags.split(', ') :
[]`, `time_offset || 0`). -/
def formatResult (r : ResultRow) : FormattedResult :=
  { snippet := r.snippet, filename := r.filename, date := r.date, time := r.time
  , timeOffset := r.timeOffset
  , tags := if r.tags = [] then [] else splitOnStr (str ", ") r.tags }

/-- Response of `/api/search`. -/
structure ApiResponse where
  page : Int
  totalPages : Int
  hasMore : Bool
  totalCount : Nat
  count : Nat
  results : List FormattedResult
deriving DecidableEq

/-- `Math.ceil(total / resultsPerPage)` for a positive divisor.  A
non-positive divisor can only come from a negative client-supplied limit; its
JS float ceiling is not modelled and the theorems below assume a positive
limit. -/
def ceilDiv (total : Nat) (rpp : Int) : Int :=
  if 0 < rpp then ((total : Int) + rpp - 1) / rpp else 0

/-- The search options the `/api/search` handler builds from a request:
`offset = (page - 1) * limit` with a one-based page (`parseInt(page) || 1`),
`limit = parseInt(limit) || 50`, `timeWindow = timeWindow || 10`. -/
def apiOpts (req : ApiRequest) : SearchOptions :=
  let currentPage := jsOrInt req.page 1
  let resultsPerPage := jsOrInt req.limit 50
  { tags := req.tags.getD []
  , dateFrom := req.dateFrom, dateTo := req.dateTo
  , limit := resultsPerPage, offset := (currentPage - 1) * resultsPerPage
  , timeWindow := jsOrInt req.timeWindow 10 }

/-- The `/api/search` handler: reject an empty query, derive
`offset = (page - 1) * limit` from the one-based page, call `searchCasts`,
and report pagination metadata (`totalPages = ceil(total / limit)`,
`hasMore = page < totalPages`). -/
def apiSearch (ftsMatch : Str → Str → Bool) (db : DbState) (req : ApiRequest) :
    Option ApiResponse :=
  if req.query = [] then none
  else
    let currentPage := jsOrInt req.page 1
    let resultsPerPage := jsOrInt req.limit 50
    let sr := searchCasts ftsMatch db req.query (apiOpts req)
    let totalPages := ceilDiv sr.total resultsPerPage
    some
      { page := currentPage, totalPages := totalPages
      , hasMore := decide (currentPage < totalPages)
      , totalCount := sr.total, count := sr.results.length
      , results := sr.results.map formatResult }

/-- Schema invariants of `indexed_files` that the database engine maintains:
record ids are pairwise distinct and below the AUTOINCREMENT counter. -/
def WfDb (db : DbState) : Prop :=
  (∀ r ∈ db.files, r.id < db.nextId) ∧ db.files.Pairwise (fun a b => a.id ≠ b.id)

/-!  ## Concrete fixtures used by witnesses and counterexamples  -/

/-- A concrete full-text predicate (plain substring containment), used to
instantiate the abstract FTS5 `MATCH` parameter on concrete inputs. -/
def substrMatch : Str → Str → Bool := fun q c => containsSub c q

/-- The no-fault injection: no step of any transaction throws. -/
def noFaults : Str → Str → Option Step := fun _ _ => none

/-- A freshly created, empty store. -/
def emptyDb : DbState :=
  { nextId := 1, files := [], strategies := [], fragments := [], versions := [] }

/-- A completed artifact record used by the search witnesses. -/
def c3File : FileRec :=
  { id := 1, path := str "public/casts/a.cast", filename := str "a.cast", date := none
  , time := none, timestamp := some 0, fileSize := some 1, fileMtime := some 1
  , indexedAt := some 1, completed := true }

/-- The fragment owned by `c3File`. -/
def c3Frag : Fragment :=
  { content := str "abc", fileId := 1, timestamp := some 0, timeOffset := 0, tags := [] }

/-- A store with one completed artifact owning one fragment. -/
def c3Db : DbState :=
  { nextId := 2, files := [c3File], strategies := [], fragments := [c3Frag]
  , versions := [] }

/-- A filename that does not match the artifact naming convention. -/
def fooName : Str := str "foo.cast"

/-- The strategy used by the concrete fixtures. -/
def fooStrat : Strategy := { id := str "s", name := str "strategy", version := str "1" }

/-- A configuration activating exactly `fooStrat`. -/
def oneStratCfg : Config :=
  { version := str "v1", currentStrategies := [str "s"], indexStrategies := [fooStrat] }

/-- A file system holding only the plain `foo.cast` with one payload line. -/
def fooEnvPlain : Env :=
  { stats := fun p =>
      if p = castsDirPath ++ '/' :: fooName then some { size := 3, mtime := some 10 } else none
  , events := fun p =>
      if p = castsDirPath ++ '/' :: fooName then
        some [.skip, .event 1 (str "o") (str "hi")]
      else none }

/-- A file system holding `foo.cast` both plain and gzipped. -/
def fooEnvBoth : Env :=
  { stats := fun p =>
      if p = castsDirPath ++ '/' :: fooName ∨ p = zipDirPath ++ '/' :: (fooName ++ str ".gz")
      then some { size := 3, mtime := some 10 } else none
  , events := fun p =>
      if p = castsDirPath ++ '/' :: fooName ∨ p = zipDirPath ++ '/' :: (fooName ++ str ".gz")
      then some [.skip, .event 1 (str "o") (str "hi")] else none }

/-- A full reindex pass over the plain `foo.cast` from an empty store. -/
def c8Pass : DbState × Nat :=
  indexCastFiles fooEnvPlain noFaults 1000 oneStratCfg
    (findAllCastFiles (some [fooName]) (some [])) emptyDb

/-- A full reindex pass discovering both variants of `foo.cast` from an empty
store. -/
def c4Pass : DbState × Nat :=
  indexCastFiles fooEnvBoth noFaults 1000 oneStratCfg
    (findAllCastFiles (some [fooName]) (some [fooName ++ str ".gz"])) emptyDb

/-- A fault injection that makes the registration statement of every
transaction throw. -/
def regFault : Str → Str → Option Step := fun _ _ => some Step.register

/-- A registered artifact record whose stored fingerprint is `(5, 100)`. -/
def c5Rec : FileRec :=
  { id := 1, path := str "p", filename := str "f", date := none, time := none
  , timestamp := none, fileSize := some 5, fileMtime := some 100, indexedAt := some 7
  , completed := true }

/-- A store holding just `c5Rec`. -/
def c5Db : DbState :=
  { nextId := 2, files := [c5Rec], strategies := [], fragments := [], versions := [] }

/-- A completed single-fragment artifact used by the search fixtures. -/
def c9File (i : Nat) (ts : Int) : FileRec :=
  { id := i, path := 'p' :: [Char.ofNat (48 + i)], filename := 'f' :: [Char.ofNat (48 + i)]
  , date := none, time := none, timestamp := some ts, fileSize := some 1
  , fileMtime := some 1, indexedAt := some 1, completed := true }

/-- A fragment owned by artifact `i`. -/
def c9Frag (i : Nat) (content : Str) : Fragment :=
  { content := content, fileId := i, timestamp := none, timeOffset := 0, tags := [] }

/-- Five completed artifacts with one matching fragment each (pagination
witness). -/
def c9Db : DbState :=
  { nextId := 6
  , files := [c9File 1 10, c9File 2 20, c9File 3 30, c9File 4 40, c9File 5 50]
  , strategies := []
  , fragments := [c9Frag 1 (str "a1"), c9Frag 2 (str "a2"), c9Frag 3 (str "a3"),
                  c9Frag 4 (str "a4"), c9Frag 5 (str "a5")]
  , versions := [] }

/-- The pagination witness request: `limit 2, page 2`, no time window. -/
def c9Req : ApiRequest :=
  { query := str "a", limit := some 2, page := some 2, timeWindow := some (-1) }

/-- Modelled from the claim's words (not from the source): window buckets
computed with FLOOR division `floor(artifactTimestamp / windowMillis)`, to be
compared against the source's truncating division. -/
def bucketFloorClaim (w : Int) (ci : Fragment × FileRec) : Option Int :=
  ci.2.timestamp.map (fun ts => Int.fdiv ts w)

/-- Modelled from the claim's words (not from the source): the time-window
deduplication described by C6, with floor buckets. -/
def windowDedupFloorClaim (w : Int) (ms : List (Fragment × FileRec)) :
    List (Fragment × FileRec) :=
  keepFirstBy (bucketFloorClaim w) (sortBy wLe ms) []

/-- Two completed matching artifacts at timestamps −1 and 1 (C6 fixture). -/
def c6Db : DbState :=
  { nextId := 3
  , files := [c9File 1 (-1), c9File 2 1]
  , strategies := []
  , fragments := [c9Frag 1 (str "a1"), c9Frag 2 (str "a2")]
  , versions := [] }

/-- Four completed matching artifacts at T, T+2min, T+9min and T+15min for
`T = 600000·k` milliseconds (C7 fixture). -/
def c7Db (k : Nat) : DbState :=
  { nextId := 5
  , files := [c9File 1 ((600000 * k : Nat) : Int), c9File 2 ((600000 * k + 120000 : Nat) : Int),
              c9File 3 ((600000 * k + 540000 : Nat) : Int),
              c9File 4 ((600000 * k + 900000 : Nat) : Int)]
  , strategies := []
  , fragments := [c9Frag 1 (str "a1"), c9Frag 2 (str "a2"), c9Frag 3 (str "a3"),
                  c9Frag 4 (str "a4")]
  , versions := [] }

/-- The C7 counterexample store: base timestamp T = 540000 ms (9 minutes),
fragments at T, T+2min, T+9min and T+15min. -/
def c7CxDb : DbState :=
  { nextId := 5
  , files := [c9File 1 540000, c9File 2 660000, c9File 3 1080000, c9File 4 1440000]
  , strategies := []
  , fragments := [c9Frag 1 (str "a1"), c9Frag 2 (str "a2"), c9Frag 3 (str "a3"),
                  c9Frag 4 (str "a4")]
  , versions := [] }

/-!  ## General lemmas about the list combinators of the model  -/

/-- An artifact is fully indexed and up to date for a strategy: the catalog
row of its path is completed, carries the live size and a stored fingerprint
at least as new as the live one, and the exact strategy application row has a
completion timestamp. -/
def UpToDate (env : Env) (db : DbState) (strat : Strategy) (e : FileEntry) : Prop :=
  ∃ st lm rec sm srow,
    env.stats e.path = some st ∧ st.mtime = some lm ∧
    findFile db e.path = some rec ∧
    findFileById db rec.id = some rec ∧
    rec.completed = true ∧
    rec.fileSize = some st.size ∧ rec.fileMtime = some sm ∧ lm ≤ sm ∧
    findStrat db rec.id strat.id strat.version = some srow ∧
    srow.completedAt.isSome = true

/-- The version-marker bookkeeping `indexCastFiles` performs before the
strategy loop: schema initialisation, the legacy schema marker, and the
indexer version marker. -/
def versionStamp (config : Config) (db0 : DbState) : DbState :=
  let db := initDatabase db0
  let db := if jsStrFalsy (getVersion db schemaKey) then
      setVersion db schemaKey (str "1.0.0")
    else db
  setVersion db indexerKey config.version

/-- The version table is in the steady state the marker bookkeeping
produces: a migrated (non-legacy) schema marker, and the indexer marker as
the final row with no earlier row under its key. -/
def VersionsReady (config : Config) (db : DbState) : Prop :=
  (∃ v, getVersion db schemaKey = some v ∧ v ≠ [] ∧ v ≠ str "0.0.0" ∧
    v ≠ str "1.0.0") ∧
  ∃ l, db.versions = l ++ [(indexerKey, config.version)] ∧
    ∀ kv ∈ l, kv.1 ≠ indexerKey

/-- A discovered plain cast file used by the idempotence witness. -/
def c2Entry : FileEntry := { path := castsDirPath ++ '/' :: fooName, isGzipped := false }

theorem mem_insertBy_iff {α : Type} (le : α → α → Bool) (x a : α) (l : List α) :
    a ∈ insertBy le x l ↔ a = x ∨ a ∈ l := by
  induction l with
  | nil => simp [insertBy]
  | cons b l ih =>
    simp only [insertBy]
    cases hle : le x b
    · simp only [Bool.false_eq_true, if_false, List.mem_cons, ih]
      tauto
    · simp [List.mem_cons]

theorem mem_sortBy_iff {α : Type} (le : α → α → Bool) (a : α) (l : List α) :
    a ∈ sortBy le l ↔ a ∈ l := by
  induction l with
  | nil => simp [sortBy]
  | cons x xs ih => simp [sortBy, mem_insertBy_iff, ih]

theorem mem_of_keepFirstBy {α : Type} {bk : α → Option Int} {x : α} :
    ∀ {l : List α} {seen : List (Option Int)}, x ∈ keepFirstBy bk l seen → x ∈ l := by
  intro l
  induction l with
  | nil => intro seen h; simp [keepFirstBy] at h
  | cons y ys ih =>
    intro seen h
    simp only [keepFirstBy] at h
    by_cases hy : bk y ∈ seen
    · simp only [if_pos hy] at h
      exact List.mem_cons_of_mem _ (ih h)
    · simp only [if_neg hy, List.mem_cons] at h
      rcases h with h | h
      · simp [h]
      · exact List.mem_cons_of_mem _ (ih h)

theorem mem_of_sqlSlice {α : Type} {limit offset : Int} {a : α} {l : List α}
    (h : a ∈ sqlSlice limit offset l) : a ∈ l := by
  unfold sqlSlice at h
  by_cases hl : limit < 0
  · simp only [if_pos hl] at h
    exact List.mem_of_mem_drop h
  · simp only [if_neg hl] at h
    exact List.mem_of_mem_drop (List.mem_of_mem_take h)

theorem mem_of_orderedMatches {ftsMatch : Str → Str → Bool} {db : DbState} {q : Str}
    {opts : SearchOptions} {ci : Fragment × FileRec}
    (h : ci ∈ orderedMatches ftsMatch db q opts) : ci ∈ searchMatches ftsMatch db q opts := by
  unfold orderedMatches at h
  by_cases htw : opts.timeWindow > 0
  · simp only [if_pos htw] at h
    exact (mem_sortBy_iff wLe ci _).mp (mem_of_keepFirstBy h)
  · simp only [if_neg htw] at h
    exact (mem_sortBy_iff plainLe ci _).mp h

theorem searchMatches_completed {ftsMatch : Str → Str → Bool} {db : DbState} {q : Str}
    {opts : SearchOptions} {ci : Fragment × FileRec}
    (h : ci ∈ searchMatches ftsMatch db q opts) :
    ci.2 ∈ db.files ∧ ci.2.completed = true := by
  unfold searchMatches at h
  rw [List.mem_filter] at h
  obtain ⟨hmem, hwhere⟩ := h
  rw [List.mem_flatMap] at hmem
  obtain ⟨c, _, hc⟩ := hmem
  rw [List.mem_map] at hc
  obtain ⟨i, hi, rfl⟩ := hc
  refine ⟨(List.mem_filter.mp hi).1, ?_⟩
  simp only [whereClause, Bool.and_eq_true, decide_eq_true_eq] at hwhere
  exact hwhere.1.1.1.2

/-!  ## C3: search is scoped to completed artifacts  -/

/-- C3: for every database state, query text and options, every row returned
by the search operation belongs to an artifact record whose completed flag is
true; a fragment owned by a `completed = false` artifact is never returned. -/
theorem searchOnlyCompletedArtifacts (ftsMatch : Str → Str → Bool) (db : DbState)
    (q : Str) (opts : SearchOptions) (r : ResultRow)
    (hr : r ∈ (searchCasts ftsMatch db q opts).results) :
    ∃ rec ∈ db.files, rec.completed = true ∧ rec.path = r.filePath ∧
      rec.filename = r.filename := by
  simp only [searchCasts, List.mem_map] at hr
  obtain ⟨ci, hci, rfl⟩ := hr
  have hm := mem_of_orderedMatches (mem_of_sqlSlice hci)
  obtain ⟨hmem, hcomp⟩ := searchMatches_completed hm
  exact ⟨ci.2, hmem, hcomp, rfl, rfl⟩

/-- Witness for C3 at a concrete store: the returned row of `c3Db` is owned
by its completed artifact. -/
theorem searchOnlyCompletedArtifacts_witness :
    ∃ rec ∈ c3Db.files, rec.completed = true ∧
      rec.path = (projectRow (c3Frag, c3File)).filePath ∧
      rec.filename = (projectRow (c3Frag, c3File)).filename :=
  searchOnlyCompletedArtifacts substrMatch c3Db (str "b") {}
    (projectRow (c3Frag, c3File)) (by decide)

/-!  ## C5: change detection of `registerFile`  -/

theorem unchangedCheck_iff (r : FileRec) (st : FileStats) :
    unchangedCheck r st = true ↔
      (r.fileSize = some st.size ∧
        ∃ lm sm, st.mtime = some lm ∧ r.fileMtime = some sm ∧ lm ≤ sm) := by
  unfold unchangedCheck
  cases hst : st.mtime <;> cases hrm : r.fileMtime <;>
    simp [hst, hrm, Bool.and_eq_true, decide_eq_true_eq]

theorem findFile_map_pathPreserving (f : FileRec → FileRec)
    (hf : ∀ r, (f r).path = r.path) (l : List FileRec) (p : Str) :
    (l.map f).find? (fun r => decide (r.path = p)) =
      (l.find? (fun r => decide (r.path = p))).map f := by
  induction l with
  | nil => rfl
  | cons a l ih =>
    simp only [List.map_cons, List.find?]
    rw [hf a]
    cases hpa : decide (a.path = p) <;> simp [hpa, ih]

/-- C5 counterexample: the store holds fingerprint `(size 5, mtime 100)`, the
live stats are `(size 5, mtime 50)` — the fingerprints differ, so the claim
requires an in-place update with `completed` reset — yet `registerFile`
returns the record completely untouched, because the source tests
`fileModifiedTime <= existing.file_mtime` rather than equality. -/
theorem registerFileStaleMtimeCounterexample :
    registerFile c5Db 999 (str "p") (str "f") { size := 5, mtime := some 50 } = (1, c5Db) ∧
    c5Rec.fileMtime = some 100 ∧ ((50 : Int) = 100 → False) ∧ c5Rec.completed = true := by
  refine ⟨by decide, by decide, by decide, by decide⟩

/-- C5 amended: for an already-registered path, the record is left untouched
if and only if the stored size equals the live size and both modification
fingerprints are available with the live one at most the stored one;
otherwise (size changed, either fingerprint unavailable, or the live
fingerprint newer than the stored one) the record is updated in place with
the live stats and its completed flag is reset to false. -/
theorem registerFileChangeDetection (db : DbState) (now : Int) (p fn : Str)
    (st : FileStats) (r : FileRec) (hfind : findFile db p = some r) :
    (registerFile db now p fn st).1 = r.id ∧
    ((r.fileSize = some st.size ∧
        ∃ lm sm, st.mtime = some lm ∧ r.fileMtime = some sm ∧ lm ≤ sm) →
      (registerFile db now p fn st).2 = db) ∧
    (¬(r.fileSize = some st.size ∧
        ∃ lm sm, st.mtime = some lm ∧ r.fileMtime = some sm ∧ lm ≤ sm) →
      findFile (registerFile db now p fn st).2 p =
        some { r with fileSize := some st.size, fileMtime := st.mtime,
                      indexedAt := some now, completed := false }) := by
  unfold registerFile
  rw [hfind]
  dsimp only
  by_cases hc : unchangedCheck r st = true
  · rw [if_pos hc]
    exact ⟨rfl, fun _ => rfl, fun hn => absurd ((unchangedCheck_iff r st).mp hc) hn⟩
  · rw [if_neg hc]
    refine ⟨rfl, fun hyes => absurd ((unchangedCheck_iff r st).mpr hyes) hc, fun _ => ?_⟩
    unfold findFile
    rw [findFile_map_pathPreserving _ (fun r' => by split <;> rfl)]
    have : db.files.find? (fun x => decide (x.path = p)) = some r := hfind
    rw [this]
    simp

/-- Witness for C5 amended: a size change at the concrete store `c5Db` is
detected and rewrites the record with `completed = false`. -/
theorem registerFileChangeDetection_witness :
    (registerFile c5Db 999 (str "p") (str "f") { size := 6, mtime := some 100 }).1 = 1 ∧
    findFile (registerFile c5Db 999 (str "p") (str "f") { size := 6, mtime := some 100 }).2
        (str "p") =
      some { c5Rec with fileSize := some 6, fileMtime := some 100, indexedAt := some 999,
                        completed := false } := by
  have h := registerFileChangeDetection c5Db 999 (str "p") (str "f")
    { size := 6, mtime := some 100 } c5Rec (by decide)
  exact ⟨h.1, h.2.2 (by rintro ⟨h1, -⟩; revert h1; decide)⟩

/-!  ## C10: the fragment extraction loop  -/

theorem replGo_matchCtrl (fuel : Nat) : ∀ s : Str, s.length ≤ fuel →
    replGo matchCtrl fuel s = s.filter (fun c => !ctrlChar c) := by
  induction fuel with
  | zero =>
    intro s h
    have : s = [] := List.eq_nil_of_length_eq_zero (Nat.le_zero.mp h)
    subst this; rfl
  | succ fuel ih =>
    intro s h
    cases s with
    | nil => rfl
    | cons c rest =>
      simp only [replGo, matchCtrl]
      cases hc : ctrlChar c <;>
        simp [hc, List.filter_cons, ih rest (by simpa using Nat.le_of_succ_le_succ h)]

theorem replGo_matchCR (fuel : Nat) : ∀ s : Str, s.length ≤ fuel →
    replGo matchCR fuel s = s.filter (fun c => !decide (c = '\r')) := by
  induction fuel with
  | zero =>
    intro s h
    have : s = [] := List.eq_nil_of_length_eq_zero (Nat.le_zero.mp h)
    subst this; rfl
  | succ fuel ih =>
    intro s h
    cases s with
    | nil => rfl
    | cons c rest =>
      simp only [replGo, matchCR]
      by_cases hc : c = '\r' <;>
        simp [hc, List.filter_cons, ih rest (by simpa using Nat.le_of_succ_le_succ h)]

theorem replaceAll_matchCtrl (s : Str) :
    replaceAllEmpty matchCtrl s = s.filter (fun c => !ctrlChar c) :=
  replGo_matchCtrl s.length s (Nat.le_refl _)

theorem replaceAll_matchCR (s : Str) :
    replaceAllEmpty matchCR s = s.filter (fun c => !decide (c = '\r')) :=
  replGo_matchCR s.length s (Nat.le_refl _)

/-- The last two replaces of `stripColors` are character filters, so no
control byte of the class `[\x00-\x08\x0B-\x1F\x7F-\x9F]` (which contains
`ESC`) and no carriage return survives stripping. -/
theorem stripColors_clean (s : Str) (c : Char) (hc : c ∈ stripColors s) :
    ctrlChar c = false ∧ c ≠ '\r' := by
  unfold stripColors at hc
  rw [replaceAll_matchCR, replaceAll_matchCtrl] at hc
  rw [List.mem_filter] at hc
  obtain ⟨hc1, hr⟩ := hc
  rw [List.mem_filter] at hc1
  exact ⟨by simpa using hc1.2, by simpa using hr⟩

/-- C10 amended: the indexer stores a fragment exactly for the events at
index 1 or later whose payload is non-blank after control-sequence stripping
(the code also discards payloads that strip to whitespace only); the header
record never becomes a fragment, no stored fragment has empty text, no stored
fragment's text contains a residual control/escape byte or carriage return,
and a CSI color sequence followed by printable text yields exactly the
printable text. -/
theorem eventFragmentsCharacterization (fileId : Nat) (ts : Option Int) (tags : Str)
    (events : List CastEvent) :
    eventFragments fileId ts tags events =
      (events.drop 1).filterMap (fun e =>
        match e with
        | .event t _ payload =>
          if jsTrim (stripColors payload) ≠ [] then
            some { content := stripColors payload, fileId := fileId, timestamp := ts
                 , timeOffset := t, tags := tags }
          else none
        | .skip => none) ∧
    (∀ f ∈ eventFragments fileId ts tags events,
      f.content ≠ [] ∧ ∀ c ∈ f.content, ctrlChar c = false ∧ c ≠ '\r') ∧
    stripColors (str "\x1B[31mhello") = str "hello" := by
  have hmain : eventFragments fileId ts tags events =
      (events.drop 1).filterMap (fun e =>
        match e with
        | .event t _ payload =>
          if jsTrim (stripColors payload) ≠ [] then
            some { content := stripColors payload, fileId := fileId, timestamp := ts
                 , timeOffset := t, tags := tags }
          else none
        | .skip => none) := by
    unfold eventFragments
    apply List.filterMap_congr
    intro e _
    cases e with
    | skip => rfl
    | event t ch payload =>
      by_cases hp : payload = []
      · subst hp; rfl
      · simp only [if_neg hp]
        by_cases ht : jsTrim (stripColors payload) = [] <;> simp [ht]
  refine ⟨hmain, ?_, by decide⟩
  intro f hf
  rw [hmain, List.mem_filterMap] at hf
  obtain ⟨e, _, he⟩ := hf
  cases e with
  | skip => exact Option.noConfusion he
  | event t ch payload =>
    dsimp only at he
    by_cases ht : jsTrim (stripColors payload) = []
    · rw [if_neg (by simpa using ht)] at he
      exact Option.noConfusion he
    · rw [if_pos (by simpa using ht)] at he
      obtain rfl := Option.some.inj he
      constructor
      · intro hempty
        apply ht
        have : stripColors payload = [] := hempty
        rw [this]; rfl
      · intro c hcmem
        exact stripColors_clean payload c hcmem

/-- C10 counterexample: the payload `" "` (a single space) is non-empty after
control-sequence stripping, yet the loop stores no fragment for it, because
the source also requires `content.trim()` to be non-empty. -/
theorem eventFragmentsWhitespaceCounterexample :
    eventFragments 1 none [] [.skip, .event 0 (str "o") (str " ")] = [] ∧
    stripColors (str " ") = str " " ∧ str " " ≠ [] := by
  refine ⟨by decide, by decide, by decide⟩

/-!  ## Fresh-path processing  -/

theorem findById_append_fresh (l : List FileRec) (r : FileRec)
    (h : ∀ x ∈ l, x.id ≠ r.id) :
    (l ++ [r]).find? (fun x => decide (x.id = r.id)) = some r := by
  have hl : l.find? (fun x => decide (x.id = r.id)) = none := by
    rw [List.find?_eq_none]
    intro x hx
    simpa using h x hx
  simp [List.find?_append, hl]

theorem map_eq_self_of_fix {α : Type} (f : α → α) (l : List α) (h : ∀ x ∈ l, f x = x) :
    l.map f = l := by
  induction l with
  | nil => rfl
  | cons a l ih =>
    rw [List.map_cons, h a (List.mem_cons_self a l),
      ih (fun x hx => h x (List.mem_cons_of_mem a hx))]

/-- Processing a file whose path is not yet registered (no fault, stats and
events available): the transaction inserts one catalog record for the path —
completed, with the live stats and the filename-derived metadata — clears
the (necessarily foreign) fragments of the fresh id, inserts the extracted
fragments and writes the strategy application row. -/
theorem indexCastFile_freshPath (env : Env) (now : Int) (db : DbState)
    (e : FileEntry) (strat : Strategy) (st : FileStats) (evts : List CastEvent)
    (hwf : WfDb db)
    (habsent : findFile db e.path = none)
    (hstats : env.stats e.path = some st)
    (hevents : env.events e.path = some evts) :
    indexCastFile env none now db e strat =
      (true,
       { nextId := db.nextId + 1
       , files := db.files ++
           [{ id := db.nextId, path := e.path, filename := entryFilename e
            , date := (parseFilenameDate (entryFilename e)).map (fun p => p.date)
            , time := (parseFilenameDate (entryFilename e)).map (fun p => p.time)
            , timestamp := (parseFilenameDate (entryFilename e)).map (fun p => p.timestampMs)
            , fileSize := some st.size, fileMtime := st.mtime
            , indexedAt := some now, completed := true }]
       , strategies := (db.strategies.filter (fun s =>
           decide (¬(s.fileId = db.nextId ∧ s.strategyId = strat.id ∧
             s.strategyVersion = strat.version)))) ++
           [{ fileId := db.nextId, strategyId := strat.id
            , strategyVersion := strat.version, completedAt := some now }]
       , fragments := db.fragments.filter (fun c => decide (c.fileId ≠ db.nextId)) ++
           eventFragments db.nextId
             ((parseFilenameDate (entryFilename e)).map (fun p => p.timestampMs))
             (tagsStringOf (parseFilenameDate (entryFilename e))) evts
       , versions := db.versions },
       (eventFragments db.nextId
         ((parseFilenameDate (entryFilename e)).map (fun p => p.timestampMs))
         (tagsStringOf (parseFilenameDate (entryFilename e))) evts).length) := by
  have hid : ∀ x ∈ db.files, x.id ≠ db.nextId := fun x hx => Nat.ne_of_lt (hwf.1 x hx)
  set rec0 : FileRec :=
    { id := db.nextId, path := e.path, filename := entryFilename e
    , date := (parseFilenameDate (entryFilename e)).map (fun p => p.date)
    , time := (parseFilenameDate (entryFilename e)).map (fun p => p.time)
    , timestamp := (parseFilenameDate (entryFilename e)).map (fun p => p.timestampMs)
    , fileSize := some st.size, fileMtime := st.mtime
    , indexedAt := some now, completed := false } with hrec0
  have hreg : registerFile db now e.path (entryFilename e) st =
      (db.nextId,
       { nextId := db.nextId + 1, files := db.files ++ [rec0]
       , strategies := db.strategies, fragments := db.fragments, versions := db.versions }) := by
    unfold registerFile
    rw [habsent]
  have h1 : findFileById
      { nextId := db.nextId + 1, files := db.files ++ [rec0]
      , strategies := db.strategies, fragments := db.fragments, versions := db.versions }
      db.nextId = some rec0 := by
    unfold findFileById
    exact findById_append_fresh db.files rec0 hid
  have h2 : isFileIndexed
      { nextId := db.nextId + 1, files := db.files ++ [rec0]
      , strategies := db.strategies, fragments := db.fragments, versions := db.versions }
      db.nextId strat.id strat.version = false := by
    unfold isFileIndexed
    rw [h1]
    rfl
  have h3 : ∀ l : List FileRec, (∀ x ∈ l, x.id ≠ db.nextId) →
      l.map (fun r => if r.id = db.nextId then { r with completed := true } else r) = l :=
    fun l hl => map_eq_self_of_fix _ l (fun x hx => by rw [if_neg (hl x hx)])
  have htx : indexCastFileTx env none now db e.path (entryFilename e) strat st =
      .ok (true,
        { nextId := db.nextId + 1
        , files := db.files ++ [{ rec0 with completed := true }]
        , strategies := (db.strategies.filter (fun s =>
            decide (¬(s.fileId = db.nextId ∧ s.strategyId = strat.id ∧
              s.strategyVersion = strat.version)))) ++
            [{ fileId := db.nextId, strategyId := strat.id
             , strategyVersion := strat.version, completedAt := some now }]
        , fragments := db.fragments.filter (fun c => decide (c.fileId ≠ db.nextId)) ++
            eventFragments db.nextId
              ((parseFilenameDate (entryFilename e)).map (fun p => p.timestampMs))
              (tagsStringOf (parseFilenameDate (entryFilename e))) evts
        , versions := db.versions },
        (eventFragments db.nextId
          ((parseFilenameDate (entryFilename e)).map (fun p => p.timestampMs))
          (tagsStringOf (parseFilenameDate (entryFilename e))) evts).length) := by
    unfold indexCastFileTx
    rw [hreg]
    dsimp only
    rw [h2, hevents]
    dsimp only [Bool.false_and]
    unfold markFileCompleted markStrategyCompleted clearPartialIndexing
    dsimp only
    rw [List.map_append, h3 db.files hid]
    dsimp only [List.map_cons, List.map_nil]
    rw [if_pos rfl]
    simp
  unfold indexCastFile
  rw [hstats]
  dsimp only
  rw [htx]

/-!  ## C8: artifacts with unparsable filenames  -/

theorem eventFragments_fields (i : Nat) (ts : Option Int) (tg : Str)
    (evts : List CastEvent) :
    ∀ f ∈ eventFragments i ts tg evts, f.fileId = i ∧ f.timestamp = ts ∧ f.tags = tg := by
  intro f hf
  unfold eventFragments at hf
  rw [List.mem_filterMap] at hf
  obtain ⟨e, _, he⟩ := hf
  cases e with
  | skip => exact Option.noConfusion he
  | event t ch payload =>
    dsimp only at he
    by_cases hp : payload = []
    · rw [if_pos hp] at he
      exact Option.noConfusion he
    · rw [if_neg hp] at he
      by_cases ht : jsTrim (stripColors payload) = []
      · rw [if_pos ht] at he
        exact Option.noConfusion he
      · rw [if_neg ht] at he
        obtain rfl := Option.some.inj he
        exact ⟨rfl, rfl, rfl⟩

/-- C8 counterexample: `foo.cast` does not match the naming convention, yet a
full reindex pass creates an artifact record for it and stores its fragment —
it is not excluded from indexing. -/
theorem unparsableFilenameIndexedCounterexample :
    parseFilenameDate fooName = none ∧
    (c8Pass.1.files.map (fun r => (r.filename, r.completed))) = [(fooName, true)] ∧
    c8Pass.1.fragments.length = 1 := by
  refine ⟨by decide, by decide, by decide⟩

/-- C8 amended: an artifact whose filename does not match the naming
convention is not excluded from indexing: a fresh such path is registered and
fully indexed; only the filename-derived metadata is missing — the record's
date, time and timestamp are null and its stored fragments carry a null
timestamp and an empty tag string. -/
theorem unparsableFilenameStillIndexed (env : Env) (now : Int) (db : DbState)
    (e : FileEntry) (strat : Strategy) (st : FileStats) (evts : List CastEvent)
    (hwf : WfDb db)
    (hparse : parseFilenameDate (entryFilename e) = none)
    (habsent : findFile db e.path = none)
    (hstats : env.stats e.path = some st)
    (hevents : env.events e.path = some evts) :
    indexCastFile env none now db e strat =
      (true,
       { nextId := db.nextId + 1
       , files := db.files ++
           [{ id := db.nextId, path := e.path, filename := entryFilename e
            , date := none, time := none, timestamp := none
            , fileSize := some st.size, fileMtime := st.mtime
            , indexedAt := some now, completed := true }]
       , strategies := (db.strategies.filter (fun s =>
           decide (¬(s.fileId = db.nextId ∧ s.strategyId = strat.id ∧
             s.strategyVersion = strat.version)))) ++
           [{ fileId := db.nextId, strategyId := strat.id
            , strategyVersion := strat.version, completedAt := some now }]
       , fragments := db.fragments.filter (fun c => decide (c.fileId ≠ db.nextId)) ++
           eventFragments db.nextId none [] evts
       , versions := db.versions },
       (eventFragments db.nextId none [] evts).length) ∧
    (∀ f ∈ eventFragments db.nextId none [] evts, f.timestamp = none ∧ f.tags = []) := by
  have h := indexCastFile_freshPath env now db e strat st evts hwf habsent hstats hevents
  rw [hparse] at h
  refine ⟨?_, fun f hf => ((eventFragments_fields db.nextId none [] evts) f hf).2⟩
  simpa [tagsStringOf] using h

/-- Witness for C8 amended at the concrete `foo.cast` fixture. -/
theorem unparsableFilenameStillIndexed_witness :
    (indexCastFile fooEnvPlain none 1000 emptyDb
      { path := castsDirPath ++ '/' :: fooName, isGzipped := false } fooStrat).1 = true ∧
    (∀ f ∈ eventFragments 1 none [] [.skip, .event 1 (str "o") (str "hi")],
      f.timestamp = none ∧ f.tags = []) := by
  have h := unparsableFilenameStillIndexed fooEnvPlain 1000 emptyDb
    { path := castsDirPath ++ '/' :: fooName, isGzipped := false } fooStrat
    { size := 3, mtime := some 10 } [.skip, .event 1 (str "o") (str "hi")]
    ⟨by intro r hr; exact absurd hr (by simp [emptyDb]), by simp [emptyDb]⟩
    (by decide) (by decide) (by decide) (by decide)
  exact ⟨by rw [h.1], h.2⟩

/-!  ## C4: compression variants are separate artifacts  -/
theorem endsWith_append (f s t : Str) (h : endsWith f s = true) :
    endsWith (f ++ t) (s ++ t) = true := by
  unfold endsWith at h ⊢
  rw [Bool.and_eq_true, decide_eq_true_eq, decide_eq_true_eq] at h ⊢
  obtain ⟨hle, hdrop⟩ := h
  constructor
  · simp only [List.length_append]
    omega
  · have harith : f.length + t.length - (s.length + t.length) = f.length - s.length := by
      omega
    rw [List.length_append, List.length_append, harith,
      List.drop_append_of_le_length (by omega), hdrop]

theorem basenameAux_no_slash (f : Str) (hf : '/' ∉ f) :
    ∀ acc, basenameAux f acc = acc.reverse ++ f := by
  induction f with
  | nil => intro acc; simp [basenameAux]
  | cons c rest ih =>
    intro acc
    have hc : c ≠ '/' := fun h => hf (by simp [h])
    have hrest : '/' ∉ rest := fun h => hf (List.mem_cons_of_mem _ h)
    simp only [basenameAux, if_neg hc]
    rw [ih hrest (c :: acc)]
    simp

theorem basename_concat (l f : Str) (hf : '/' ∉ f) : basename (l ++ '/' :: f) = f := by
  unfold basename
  have hmain : ∀ acc, basenameAux (l ++ '/' :: f) acc = basenameAux f [] := by
    induction l with
    | nil => intro acc; simp [basenameAux]
    | cons c rest ih =>
      intro acc
      simp only [List.cons_append, basenameAux]
      by_cases hc : c = '/' <;> simp [hc, ih]
  rw [hmain [], basenameAux_no_slash f hf []]
  simp

theorem dropSuffix_append (f s : Str) : dropSuffix (f ++ s) s = f := by
  unfold dropSuffix endsWith
  have hc : (decide (s.length ≤ (f ++ s).length) &&
      decide ((f ++ s).drop ((f ++ s).length - s.length) = s)) = true := by
    rw [Bool.and_eq_true, decide_eq_true_eq, decide_eq_true_eq]
    refine ⟨by simp, ?_⟩
    rw [show (f ++ s).length - s.length = f.length by simp, List.drop_left]
  rw [if_pos hc, show (f ++ s).length - s.length = f.length by simp, List.take_left]



theorem compressedVariantSeparateArtifacts (f : Str) (env : Env) (now : Int)
    (v : Str) (strat : Strategy) (stP stZ : FileStats) (evP evZ : List CastEvent)
    (hslash : '/' ∉ f)
    (hcast : endsWith f (str ".cast") = true)
    (hplain : containsSub f (str ".cast.plain") = false)
    (hstP : env.stats (castsDirPath ++ '/' :: f) = some stP)
    (hevP : env.events (castsDirPath ++ '/' :: f) = some evP)
    (hstZ : env.stats (zipDirPath ++ '/' :: (f ++ str ".gz")) = some stZ)
    (hevZ : env.events (zipDirPath ++ '/' :: (f ++ str ".gz")) = some evZ) :
    findAllCastFiles (some [f]) (some [f ++ str ".gz"]) =
      [{ path := castsDirPath ++ '/' :: f, isGzipped := false },
       { path := zipDirPath ++ '/' :: (f ++ str ".gz"), isGzipped := true }] ∧
    ((indexCastFiles env noFaults now
        { version := v, currentStrategies := [strat.id], indexStrategies := [strat] }
        (findAllCastFiles (some [f]) (some [f ++ str ".gz"])) emptyDb).1.files.map
      (fun r => (r.path, r.filename, r.completed))) =
      [(castsDirPath ++ '/' :: f, f, true),
       (zipDirPath ++ '/' :: (f ++ str ".gz"), f, true)] := by
  have hgz : endsWith (f ++ str ".gz") (str ".cast.gz") = true := by
    have h := endsWith_append f (str ".cast") (str ".gz") hcast
    exact h
  have hentries : findAllCastFiles (some [f]) (some [f ++ str ".gz"]) =
      [{ path := castsDirPath ++ '/' :: f, isGzipped := false },
       { path := zipDirPath ++ '/' :: (f ++ str ".gz"), isGzipped := true }] := by
    unfold findAllCastFiles
    simp [List.filter_cons, hcast, hplain, hgz]
  refine ⟨hentries, ?_⟩
  rw [hentries]
  -- filenames derived by the indexer
  have hfn1 : entryFilename { path := castsDirPath ++ '/' :: f, isGzipped := false } = f := by
    unfold entryFilename
    exact basename_concat castsDirPath f hslash
  have hslash2 : '/' ∉ f ++ str ".gz" := by
    intro h
    rcases List.mem_append.mp h with h | h
    · exact hslash h
    · revert h; decide
  have hfn2 : entryFilename { path := zipDirPath ++ '/' :: (f ++ str ".gz"), isGzipped := true } = f := by
    unfold entryFilename
    rw [if_pos rfl, basename_concat zipDirPath (f ++ str ".gz") hslash2, dropSuffix_append]
  -- the version-marker prefix of the pass on the empty store
  set dbv : DbState :=
    { nextId := 1, files := [], strategies := [], fragments := []
    , versions := [(schemaKey, str "1.1.0"), (indexerKey, v)] } with hdbv
  have hne : castsDirPath ++ '/' :: f ≠ zipDirPath ++ '/' :: (f ++ str ".gz") := by
    intro h
    have hl := congrArg List.length h
    rw [List.length_append, List.length_cons, List.length_append, List.length_cons,
      List.length_append, show castsDirPath.length = 12 from rfl,
      show zipDirPath.length = 16 from rfl, show (str ".gz").length = 3 from rfl] at hl
    omega
  -- first file: fresh path over dbv
  have hwf1 : WfDb dbv := ⟨by intro r hr; exact absurd hr (by simp [hdbv]), by simp [hdbv]⟩
  have hc1 := indexCastFile_freshPath env now dbv
    { path := castsDirPath ++ '/' :: f, isGzipped := false } strat stP evP hwf1
    (by simp [findFile, hdbv]) hstP hevP
  rw [hfn1] at hc1
  -- state after the first file
  set rec1 : FileRec :=
    { id := 1, path := castsDirPath ++ '/' :: f, filename := f
    , date := (parseFilenameDate f).map (fun p => p.date)
    , time := (parseFilenameDate f).map (fun p => p.time)
    , timestamp := (parseFilenameDate f).map (fun p => p.timestampMs)
    , fileSize := some stP.size, fileMtime := stP.mtime
    , indexedAt := some now, completed := true } with hrec1
  set db1 : DbState :=
    { nextId := 2, files := [rec1]
    , strategies := [{ fileId := 1, strategyId := strat.id
                     , strategyVersion := strat.version, completedAt := some now }]
    , fragments := eventFragments 1 ((parseFilenameDate f).map (fun p => p.timestampMs))
        (tagsStringOf (parseFilenameDate f)) evP
    , versions := [(schemaKey, str "1.1.0"), (indexerKey, v)] } with hdb1
  have hc1' : indexCastFile env none now dbv
      { path := castsDirPath ++ '/' :: f, isGzipped := false } strat =
      (true, db1, (eventFragments 1 ((parseFilenameDate f).map (fun p => p.timestampMs))
        (tagsStringOf (parseFilenameDate f)) evP).length) := by
    rw [hc1]
    simp [hdbv, hdb1, hrec1]
  -- second file: fresh path over db1
  have hwf2 : WfDb db1 := by
    constructor
    · intro r hr
      simp [hdb1] at hr
      subst hr
      show (1 : Nat) < 2
      decide
    · simp [hdb1]
  have habsent2 : findFile db1 (zipDirPath ++ '/' :: (f ++ str ".gz")) = none := by
    unfold findFile
    rw [List.find?_eq_none]
    intro x hx
    simp [hdb1] at hx
    subst hx
    simp [hrec1]
    exact fun h => hne h
  have hc2 := indexCastFile_freshPath env now db1
    { path := zipDirPath ++ '/' :: (f ++ str ".gz"), isGzipped := true } strat stZ evZ hwf2
    habsent2 hstZ hevZ
  rw [hfn2] at hc2
  -- assemble the pass
  have hstart : indexCastFiles env noFaults now
      { version := v, currentStrategies := [strat.id], indexStrategies := [strat] }
      [{ path := castsDirPath ++ '/' :: f, isGzipped := false },
       { path := zipDirPath ++ '/' :: (f ++ str ".gz"), isGzipped := true }] emptyDb =
      runStrategies env noFaults now
        { version := v, currentStrategies := [strat.id], indexStrategies := [strat] }
        [{ path := castsDirPath ++ '/' :: f, isGzipped := false },
         { path := zipDirPath ++ '/' :: (f ++ str ".gz"), isGzipped := true }]
        (dbv, 0) [strat.id] := rfl
  rw [hstart]
  unfold runStrategies
  rw [show ([strat].find? (fun s => decide (s.id = strat.id))) = some strat by simp]
  dsimp only
  unfold processFiles
  rw [show noFaults (castsDirPath ++ '/' :: f) strat.id = none from rfl, hc1']
  dsimp only
  unfold processFiles
  rw [show noFaults (zipDirPath ++ '/' :: (f ++ str ".gz")) strat.id = none from rfl, hc2]
  dsimp only
  unfold processFiles runStrategies
  simp [hdb1, hrec1, hfn2]

/-- C4 counterexample: the logical recording `foo.cast`, discovered both as a
plain file and as a gzip-compressed copy, yields TWO artifact records after a
full reindex pass — one per path — not a single record per logical filename. -/
theorem compressedVariantTwoRecordsCounterexample :
    c4Pass.1.files.length = 2 ∧
    (c4Pass.1.files.map (fun r => r.filename)) = [fooName, fooName] ∧
    (c4Pass.1.files.map (fun r => r.path)) =
      [castsDirPath ++ '/' :: fooName, zipDirPath ++ '/' :: (fooName ++ str ".gz")] := by
  refine ⟨by decide, by decide, by decide⟩

/-- Witness for C4 amended at the concrete `foo.cast` fixture. -/
theorem compressedVariantSeparateArtifacts_witness :
    findAllCastFiles (some [fooName]) (some [fooName ++ str ".gz"]) =
      [{ path := castsDirPath ++ '/' :: fooName, isGzipped := false },
       { path := zipDirPath ++ '/' :: (fooName ++ str ".gz"), isGzipped := true }] ∧
    ((indexCastFiles fooEnvBoth noFaults 1000
        { version := str "v1", currentStrategies := [fooStrat.id]
        , indexStrategies := [fooStrat] }
        (findAllCastFiles (some [fooName]) (some [fooName ++ str ".gz"])) emptyDb).1.files.map
      (fun r => (r.path, r.filename, r.completed))) =
      [(castsDirPath ++ '/' :: fooName, fooName, true),
       (zipDirPath ++ '/' :: (fooName ++ str ".gz"), fooName, true)] :=
  compressedVariantSeparateArtifacts fooName fooEnvBoth 1000 (str "v1") fooStrat
    { size := 3, mtime := some 10 } { size := 3, mtime := some 10 }
    [.skip, .event 1 (str "o") (str "hi")] [.skip, .event 1 (str "o") (str "hi")]
    (by decide) (by decide) (by decide) (by decide) (by decide) (by decide) (by decide)

/-!  ## C1: per-artifact atomicity  -/

/-- C1: whenever any step of the per-artifact transaction throws after the
transaction begins (registration, fragment clearing, extraction, fragment
insertion, or either completion-record write), the transaction is rolled back
— catalog records, strategy rows and fragments are exactly the state at
`BEGIN` — the processing call returns failure (`false`) with zero committed
inserts instead of propagating the exception, and the reindex pass over the
remaining artifacts proceeds exactly as if the failed artifact had been
skipped. -/
theorem transactionRollbackOnError (env : Env) (faults : Str → Str → Option Step)
    (now : Int) (db : DbState) (e : FileEntry) (rest : List FileEntry)
    (strat : Strategy) (st : FileStats) (n : Nat)
    (hstats : env.stats e.path = some st)
    (herr : indexCastFileTx env (faults e.path strat.id) now db e.path
      (entryFilename e) strat st = .error ()) :
    indexCastFile env (faults e.path strat.id) now db e strat = (false, db, 0) ∧
    processFiles env faults now strat (db, n) (e :: rest) =
      processFiles env faults now strat (db, n) rest := by
  have h1 : indexCastFile env (faults e.path strat.id) now db e strat = (false, db, 0) := by
    unfold indexCastFile
    rw [hstats]
    dsimp only
    rw [herr]
  refine ⟨h1, ?_⟩
  conv_lhs => unfold processFiles
  rw [h1]
  dsimp only
  rw [Nat.add_zero]

/-- Witness for C1: a register-step fault at the concrete `foo.cast` fixture
rolls back to the empty store and the one-file pass equals the empty pass. -/
theorem transactionRollbackOnError_witness :
    indexCastFile fooEnvPlain (some Step.register) 1000 emptyDb
      { path := castsDirPath ++ '/' :: fooName, isGzipped := false } fooStrat =
      (false, emptyDb, 0) ∧
    processFiles fooEnvPlain regFault 1000 fooStrat (emptyDb, 0)
      [{ path := castsDirPath ++ '/' :: fooName, isGzipped := false }] =
      processFiles fooEnvPlain regFault 1000 fooStrat (emptyDb, 0) [] :=
  transactionRollbackOnError fooEnvPlain regFault 1000 emptyDb
    { path := castsDirPath ++ '/' :: fooName, isGzipped := false } [] fooStrat
    { size := 3, mtime := some 10 } 0 (by decide) rfl

/-!  ## C9: pagination  -/
theorem lt_ceilDiv_iff (total : Nat) (page limit : Int) (hl : 1 ≤ limit) :
    page < ceilDiv total limit ↔ page * limit < (total : Int) := by
  unfold ceilDiv
  rw [if_pos (by omega)]
  constructor
  · intro h
    have h2 : page + 1 ≤ ((total : Int) + limit - 1) / limit := by omega
    have h3 : (page + 1) * limit ≤ (total : Int) + limit - 1 :=
      le_trans (mul_le_mul_of_nonneg_right h2 (by omega)) (Int.ediv_mul_le _ (by omega))
    nlinarith
  · intro h
    by_contra hcon
    push_neg at hcon
    have h2 : ((total : Int) + limit - 1) / limit + 1 ≤ page + 1 := by omega
    have h3 : (total : Int) + limit - 1 < (((total : Int) + limit - 1) / limit + 1) * limit :=
      Int.lt_ediv_add_one_mul_self _ (by omega)
    have h4 : (((total : Int) + limit - 1) / limit + 1) * limit ≤ (page + 1) * limit :=
      mul_le_mul_of_nonneg_right h2 (by omega)
    nlinarith



theorem apiPaginationCorrect (ftsMatch : Str → Str → Bool) (db : DbState)
    (req : ApiRequest) (page limit : Int)
    (hq : req.query ≠ [])
    (hp : req.page = some page) (hl : req.limit = some limit)
    (hp1 : 1 ≤ page) (hl1 : 1 ≤ limit) :
    apiSearch ftsMatch db req = some
      { page := page
      , totalPages := ceilDiv (orderedMatches ftsMatch db req.query (apiOpts req)).length limit
      , hasMore := decide (page <
          ceilDiv (orderedMatches ftsMatch db req.query (apiOpts req)).length limit)
      , totalCount := (orderedMatches ftsMatch db req.query (apiOpts req)).length
      , count := (((orderedMatches ftsMatch db req.query (apiOpts req)).drop
          (((page - 1) * limit).toNat)).take limit.toNat).length
      , results := (((orderedMatches ftsMatch db req.query (apiOpts req)).drop
          (((page - 1) * limit).toNat)).take limit.toNat).map
            (fun ci => formatResult (projectRow ci)) } ∧
    (page < ceilDiv (orderedMatches ftsMatch db req.query (apiOpts req)).length limit ↔
      page * limit < ((orderedMatches ftsMatch db req.query (apiOpts req)).length : Int)) := by
  have hpage : jsOrInt req.page 1 = page := by
    rw [hp]; unfold jsOrInt; dsimp only; rw [if_neg (by omega)]
  have hlimit : jsOrInt req.limit 50 = limit := by
    rw [hl]; unfold jsOrInt; dsimp only; rw [if_neg (by omega)]
  have hoptsl : (apiOpts req).limit = limit := by
    unfold apiOpts; dsimp only; rw [hlimit]
  have hoptso : (apiOpts req).offset = (page - 1) * limit := by
    unfold apiOpts; dsimp only; rw [hpage, hlimit]
  refine ⟨?_, lt_ceilDiv_iff _ page limit hl1⟩
  unfold apiSearch
  rw [if_neg hq]
  dsimp only
  rw [hpage, hlimit]
  unfold searchCasts
  dsimp only
  rw [hoptsl, hoptso]
  unfold sqlSlice
  dsimp only
  rw [if_neg (by omega)]
  rw [List.map_map, List.length_map]
  rfl

/-- Witness for C9: `limit 2, page 2` over 5 matches returns exactly the 3rd
and 4th items and reports `hasMore = true`. -/
theorem apiPaginationCorrect_witness :
    (apiSearch substrMatch c9Db c9Req).map
      (fun r => (r.results.map (fun x => x.snippet), r.totalCount, r.hasMore)) =
      some ([str "a3", str "a2"], 5, true) ∧
    ((2 : Int) * 2 <
      ((orderedMatches substrMatch c9Db c9Req.query (apiOpts c9Req)).length : Int)) := by
  have h := apiPaginationCorrect substrMatch c9Db c9Req 2 2 (by decide) rfl rfl
    (by omega) (by omega)
  refine ⟨?_, by decide⟩
  rw [h.1]
  decide

/-!  ## C6: time-window deduplication  -/
theorem tsGe_refl (a : Option Int) : tsGe a a = true := by
  cases a
  · simp [tsGe]
  · simp [tsGe]

theorem tsGe_total (a b : Option Int) : tsGe a b = true ∨ tsGe b a = true := by
  cases a <;> cases b <;> (simp [tsGe]; try omega)

theorem tsGe_trans {a b c : Option Int} (h1 : tsGe a b = true) (h2 : tsGe b c = true) :
    tsGe a c = true := by
  cases a <;> cases b <;> cases c <;> (simp_all [tsGe]; try omega)

theorem pairwise_insertBy {α : Type} (le : α → α → Bool)
    (htot : ∀ a b, le a b = true ∨ le b a = true)
    (htrans : ∀ {a b c}, le a b = true → le b c = true → le a c = true)
    (x : α) (l : List α) (hl : l.Pairwise (fun a b => le a b = true)) :
    (insertBy le x l).Pairwise (fun a b => le a b = true) := by
  induction l with
  | nil => simp [insertBy]
  | cons b l ih =>
    rw [List.pairwise_cons] at hl
    obtain ⟨hb, hl'⟩ := hl
    simp only [insertBy]
    cases hxb : le x b
    · rw [if_neg (by simp [hxb])]
      rw [List.pairwise_cons]
      refine ⟨?_, ih hl'⟩
      intro y hy
      rcases (mem_insertBy_iff le x y l).mp hy with rfl | hy'
      · rcases htot y b with h | h
        · rw [hxb] at h; exact absurd h (by simp)
        · exact h
      · exact hb y hy'
    · rw [if_pos (by simp [hxb])]
      rw [List.pairwise_cons]
      refine ⟨?_, List.pairwise_cons.mpr ⟨hb, hl'⟩⟩
      intro y hy
      rcases List.mem_cons.mp hy with rfl | hy'
      · exact hxb
      · exact htrans hxb (hb y hy')

theorem pairwise_sortBy {α : Type} (le : α → α → Bool)
    (htot : ∀ a b, le a b = true ∨ le b a = true)
    (htrans : ∀ {a b c}, le a b = true → le b c = true → le a c = true)
    (l : List α) : (sortBy le l).Pairwise (fun a b => le a b = true) := by
  induction l with
  | nil => simp [sortBy]
  | cons x xs ih => exact pairwise_insertBy le htot htrans x (sortBy le xs) ih

theorem keepFirstBy_sublist {α : Type} (bk : α → Option Int) :
    ∀ (l : List α) (seen), (keepFirstBy bk l seen).Sublist l := by
  intro l
  induction l with
  | nil => intro seen; simp [keepFirstBy]
  | cons x xs ih =>
    intro seen
    simp only [keepFirstBy]
    by_cases hx : bk x ∈ seen
    · rw [if_pos hx]; exact (ih seen).cons x
    · rw [if_neg hx]; exact (ih _).cons₂ x

theorem keepFirstBy_bucket_not_seen {α : Type} {bk : α → Option Int} :
    ∀ {l : List α} {seen} {k : α}, k ∈ keepFirstBy bk l seen → bk k ∉ seen := by
  intro l
  induction l with
  | nil => intro seen k h; simp [keepFirstBy] at h
  | cons x xs ih =>
    intro seen k h
    simp only [keepFirstBy] at h
    by_cases hx : bk x ∈ seen
    · rw [if_pos hx] at h; exact ih h
    · rw [if_neg hx] at h
      rcases List.mem_cons.mp h with rfl | h'
      · exact hx
      · exact fun hk => ih h' (List.mem_cons_of_mem _ hk)

theorem keepFirstBy_pairwise_ne {α : Type} (bk : α → Option Int) :
    ∀ (l : List α) (seen), (keepFirstBy bk l seen).Pairwise (fun a b => bk a ≠ bk b) := by
  intro l
  induction l with
  | nil => intro seen; simp [keepFirstBy]
  | cons x xs ih =>
    intro seen
    simp only [keepFirstBy]
    by_cases hx : bk x ∈ seen
    · rw [if_pos hx]; exact ih seen
    · rw [if_neg hx]
      rw [List.pairwise_cons]
      refine ⟨?_, ih _⟩
      intro y hy
      have hns := keepFirstBy_bucket_not_seen hy
      exact fun hxy => hns (by rw [← hxy]; exact List.mem_cons_self _ _)

theorem keepFirstBy_covers {α : Type} (bk : α → Option Int) :
    ∀ (l : List α) (seen) (x : α), x ∈ l → bk x ∉ seen →
      ∃ k ∈ keepFirstBy bk l seen, bk k = bk x := by
  intro l
  induction l with
  | nil => intro seen x hx; exact absurd hx (by simp)
  | cons y ys ih =>
    intro seen x hx hxs
    simp only [keepFirstBy]
    by_cases hy : bk y ∈ seen
    · rw [if_pos hy]
      rcases List.mem_cons.mp hx with rfl | hx'
      · exact absurd hy hxs
      · exact ih seen x hx' hxs
    · rw [if_neg hy]
      rcases List.mem_cons.mp hx with rfl | hx'
      · exact ⟨x, List.mem_cons_self _ _, rfl⟩
      · by_cases hbx : bk x = bk y
        · exact ⟨y, List.mem_cons_self _ _, hbx.symm⟩
        · obtain ⟨k, hk, hbk⟩ := ih (bk y :: seen) x hx' (by
            intro h
            rcases List.mem_cons.mp h with h | h
            · exact hbx h
            · exact hxs h)
          exact ⟨k, List.mem_cons_of_mem _ hk, hbk⟩

theorem keepFirstBy_max {α : Type} (bk : α → Option Int) (le : α → α → Bool) :
    ∀ (l : List α), l.Pairwise (fun a b => le a b = true) →
      ∀ (seen) (k x : α), k ∈ keepFirstBy bk l seen → x ∈ l → bk x = bk k →
        bk x ∉ seen → (k = x ∨ le k x = true) := by
  intro l
  induction l with
  | nil => intro _ seen k x hk; simp [keepFirstBy] at hk
  | cons y ys ih =>
    intro hp seen k x hk hx hbkx hxs
    rw [List.pairwise_cons] at hp
    obtain ⟨hy_le, hp'⟩ := hp
    simp only [keepFirstBy] at hk
    by_cases hy : bk y ∈ seen
    · rw [if_pos hy] at hk
      rcases List.mem_cons.mp hx with rfl | hx'
      · exact absurd hy hxs
      · exact ih hp' seen k x hk hx' hbkx hxs
    · rw [if_neg hy] at hk
      rcases List.mem_cons.mp hk with heq | hk'
      · subst heq
        rcases List.mem_cons.mp hx with heq2 | hx'
        · subst heq2
          exact Or.inl rfl
        · exact Or.inr (hy_le x hx')
      · rcases List.mem_cons.mp hx with heq2 | hx'
        · subst heq2
          have hns := keepFirstBy_bucket_not_seen hk'
          exact absurd (by rw [← hbkx]; exact List.mem_cons_self _ _) hns
        · refine ih hp' (bk y :: seen) k x hk' hx' hbkx ?_
          intro h
          rcases List.mem_cons.mp h with h | h
          · have hns := keepFirstBy_bucket_not_seen hk'
            exact hns (by rw [← hbkx, h]; exact List.mem_cons_self _ _)
          · exact hxs h



/-- C6 amended: for every query with `timeWindowMinutes > 0`, the pre-slice
result set is exactly: partition all matching rows into buckets by the SQLite
truncating division `timestamp / windowMillis` (equal to floor for
nonnegative timestamps; a NULL timestamp forms its own bucket), keep from
each occupied bucket exactly one row — one carrying the maximal timestamp of
the bucket, the tie broken deterministically by the stable scan order — and
order the kept rows by timestamp descending; `results` is the sliced
projection of that set and `total` its size. -/
theorem searchTimeWindowDedup (ftsMatch : Str → Str → Bool) (db : DbState)
    (q : Str) (opts : SearchOptions) (htw : opts.timeWindow > 0) :
    (searchCasts ftsMatch db q opts).results =
      (sqlSlice opts.limit opts.offset
        (windowDedup (windowMsOf opts.timeWindow) (searchMatches ftsMatch db q opts))).map
        projectRow ∧
    (searchCasts ftsMatch db q opts).total =
      (windowDedup (windowMsOf opts.timeWindow) (searchMatches ftsMatch db q opts)).length ∧
    (∀ k ∈ windowDedup (windowMsOf opts.timeWindow) (searchMatches ftsMatch db q opts),
      k ∈ searchMatches ftsMatch db q opts) ∧
    (windowDedup (windowMsOf opts.timeWindow) (searchMatches ftsMatch db q opts)).Pairwise
      (fun a b => bucketOf (windowMsOf opts.timeWindow) a ≠
        bucketOf (windowMsOf opts.timeWindow) b) ∧
    (∀ x ∈ searchMatches ftsMatch db q opts,
      ∃ k ∈ windowDedup (windowMsOf opts.timeWindow) (searchMatches ftsMatch db q opts),
        bucketOf (windowMsOf opts.timeWindow) k = bucketOf (windowMsOf opts.timeWindow) x) ∧
    (∀ k ∈ windowDedup (windowMsOf opts.timeWindow) (searchMatches ftsMatch db q opts),
      ∀ x ∈ searchMatches ftsMatch db q opts,
        bucketOf (windowMsOf opts.timeWindow) x = bucketOf (windowMsOf opts.timeWindow) k →
          tsGe k.2.timestamp x.2.timestamp = true) ∧
    (windowDedup (windowMsOf opts.timeWindow) (searchMatches ftsMatch db q opts)).Pairwise
      (fun a b => tsGe a.2.timestamp b.2.timestamp = true) := by
  have hord : orderedMatches ftsMatch db q opts =
      windowDedup (windowMsOf opts.timeWindow) (searchMatches ftsMatch db q opts) := by
    unfold orderedMatches
    rw [if_pos htw]
  have hwtot : ∀ a b : Fragment × FileRec, wLe a b = true ∨ wLe b a = true :=
    fun a b => tsGe_total a.2.timestamp b.2.timestamp
  have hwtrans : ∀ {a b c : Fragment × FileRec},
      wLe a b = true → wLe b c = true → wLe a c = true :=
    fun h1 h2 => tsGe_trans h1 h2
  have hsorted := pairwise_sortBy wLe hwtot hwtrans (searchMatches ftsMatch db q opts)
  refine ⟨?_, ?_, ?_, ?_, ?_, ?_, ?_⟩
  · unfold searchCasts
    rw [hord]
  · unfold searchCasts
    rw [hord]
  · intro k hk
    exact (mem_sortBy_iff wLe k _).mp (mem_of_keepFirstBy hk)
  · exact keepFirstBy_pairwise_ne _ _ []
  · intro x hx
    exact keepFirstBy_covers _ _ [] x ((mem_sortBy_iff wLe x _).mpr hx) (by simp)
  · intro k hk x hx hbk
    have hx' := (mem_sortBy_iff wLe x _).mpr hx
    rcases keepFirstBy_max (bucketOf (windowMsOf opts.timeWindow)) wLe _ hsorted
      [] k x hk hx' hbk (by simp) with rfl | h
    · exact tsGe_refl _
    · exact h
  · exact List.Pairwise.sublist (keepFirstBy_sublist _ _ []) hsorted

/-- Witness for C6 amended at the concrete store `c6Db`. -/
theorem searchTimeWindowDedup_witness :
    (searchCasts substrMatch c6Db (str "a") { timeWindow := 10 }).total =
      (windowDedup (windowMsOf 10)
        (searchMatches substrMatch c6Db (str "a") { timeWindow := 10 })).length ∧
    ((10 : Int) > 0) := by
  have h := searchTimeWindowDedup substrMatch c6Db (str "a") { timeWindow := 10 } (by decide)
  exact ⟨h.2.1, by decide⟩

/-- C6 counterexample: with matching rows at timestamps −1 and 1 and a
10-minute window, the claim's floor-bucket partition yields two kept rows
(buckets −1 and 0), but the code keeps only one row: SQLite's `/` truncates
toward zero, putting both timestamps into bucket 0. -/
theorem searchFloorBucketCounterexample :
    (searchCasts substrMatch c6Db (str "a") { timeWindow := 10 }).total = 1 ∧
    (windowDedupFloorClaim (windowMsOf 10)
      (searchMatches substrMatch c6Db (str "a") { timeWindow := 10 })).length = 2 ∧
    Int.fdiv (-1) (windowMsOf 10) ≠ Int.fdiv 1 (windowMsOf 10) ∧
    Int.tdiv (-1) (windowMsOf 10) = Int.tdiv 1 (windowMsOf 10) := by
  refine ⟨by decide, by decide, by decide, by decide⟩

/-!  ## C7: the concrete time-window grouping scenario  -/
theorem keepFirstBy_nil {α : Type} (bk : α → Option Int) (seen : List (Option Int)) :
    keepFirstBy bk [] seen = [] := rfl

theorem keepFirstBy_cons_mem {α : Type} (bk : α → Option Int) (x : α) (xs : List α)
    (seen : List (Option Int)) (h : bk x ∈ seen) :
    keepFirstBy bk (x :: xs) seen = keepFirstBy bk xs seen := by
  simp only [keepFirstBy, if_pos h]

theorem keepFirstBy_cons_not_mem {α : Type} (bk : α → Option Int) (x : α) (xs : List α)
    (seen : List (Option Int)) (h : bk x ∉ seen) :
    keepFirstBy bk (x :: xs) seen = x :: keepFirstBy bk xs (bk x :: seen) := by
  simp only [keepFirstBy, if_neg h]

theorem insertBy_nil {α : Type} (le : α → α → Bool) (a : α) : insertBy le a [] = [a] := rfl

theorem insertBy_cons_neg {α : Type} (le : α → α → Bool) (a b : α) (l : List α)
    (h : le a b = false) : insertBy le a (b :: l) = b :: insertBy le a l := by
  simp only [insertBy, h, Bool.false_eq_true, if_false]

set_option maxRecDepth 4000 in
/-- C7 amended: for every base timestamp T that is a whole multiple of the
10-minute window (T = 600000·k milliseconds), a store holding exactly four
matching fragments at T, T+2min, T+9min and T+15min answers a `timeWindow=10`
search with exactly 2 results: the T+15min fragment and the latest fragment
of the first cluster (T+9min), in timestamp-descending order. -/
theorem timeWindowGrouping (k : Nat) :
    (searchCasts substrMatch (c7Db k) (str "a") { timeWindow := 10 }).total = 2 ∧
    ((searchCasts substrMatch (c7Db k) (str "a") { timeWindow := 10 }).results.map
      (fun r => r.snippet)) = [str "a4", str "a3"] := by
  set m1 : Fragment × FileRec :=
    (c9Frag 1 (str "a1"), c9File 1 ((600000 * k : Nat) : Int)) with hm1
  set m2 : Fragment × FileRec :=
    (c9Frag 2 (str "a2"), c9File 2 ((600000 * k + 120000 : Nat) : Int)) with hm2
  set m3 : Fragment × FileRec :=
    (c9Frag 3 (str "a3"), c9File 3 ((600000 * k + 540000 : Nat) : Int)) with hm3
  set m4 : Fragment × FileRec :=
    (c9Frag 4 (str "a4"), c9File 4 ((600000 * k + 900000 : Nat) : Int)) with hm4
  have hfalse : ∀ a b : Nat, b < a → tsGe (some (b : Int)) (some (a : Int)) = false := by
    intro a b h
    simp only [tsGe]
    rw [decide_eq_false_iff_not]
    intro hc
    omega
  have hM : searchMatches substrMatch (c7Db k) (str "a") { timeWindow := 10 } =
      [m1, m2, m3, m4] := rfl
  have w14 : wLe m1 m4 = false := by
    simp only [wLe, hm1, hm4, c9File]
    exact hfalse _ _ (by omega)
  have w13 : wLe m1 m3 = false := by
    simp only [wLe, hm1, hm3, c9File]
    exact hfalse _ _ (by omega)
  have w12 : wLe m1 m2 = false := by
    simp only [wLe, hm1, hm2, c9File]
    exact hfalse _ _ (by omega)
  have w24 : wLe m2 m4 = false := by
    simp only [wLe, hm2, hm4, c9File]
    exact hfalse _ _ (by omega)
  have w23 : wLe m2 m3 = false := by
    simp only [wLe, hm2, hm3, c9File]
    exact hfalse _ _ (by omega)
  have w34 : wLe m3 m4 = false := by
    simp only [wLe, hm3, hm4, c9File]
    exact hfalse _ _ (by omega)
  have hsort : sortBy wLe [m1, m2, m3, m4] = [m4, m3, m2, m1] := by
    simp only [sortBy]
    rw [insertBy_nil, insertBy_cons_neg _ _ _ _ w34, insertBy_nil,
      insertBy_cons_neg _ _ _ _ w24, insertBy_cons_neg _ _ _ _ w23, insertBy_nil,
      insertBy_cons_neg _ _ _ _ w14, insertBy_cons_neg _ _ _ _ w13,
      insertBy_cons_neg _ _ _ _ w12, insertBy_nil]
  have htdiv : ∀ n : Nat, Int.tdiv (n : Int) (600000 : Int) = ((n / 600000 : Nat) : Int) :=
    fun n => rfl
  have hw : windowMsOf 10 = (600000 : Int) := rfl
  have hb1 : bucketOf (windowMsOf 10) m1 = some (k : Int) := by
    simp only [bucketOf, hm1, c9File, hw, Option.map_some', htdiv]
    rw [show 600000 * k / 600000 = k by omega]
  have hb2 : bucketOf (windowMsOf 10) m2 = some (k : Int) := by
    simp only [bucketOf, hm2, c9File, hw, Option.map_some', htdiv]
    rw [show (600000 * k + 120000) / 600000 = k by omega]
  have hb3 : bucketOf (windowMsOf 10) m3 = some (k : Int) := by
    simp only [bucketOf, hm3, c9File, hw, Option.map_some', htdiv]
    rw [show (600000 * k + 540000) / 600000 = k by omega]
  have hb4 : bucketOf (windowMsOf 10) m4 = some ((k : Int) + 1) := by
    simp only [bucketOf, hm4, c9File, hw, Option.map_some', htdiv]
    rw [show (600000 * k + 900000) / 600000 = k + 1 by omega]
    push_cast
    rfl
  have hdedup : windowDedup (windowMsOf 10)
      (searchMatches substrMatch (c7Db k) (str "a") { timeWindow := 10 }) = [m4, m3] := by
    unfold windowDedup
    rw [hM, hsort]
    rw [keepFirstBy_cons_not_mem _ _ _ _ (by simp)]
    rw [hb4]
    rw [keepFirstBy_cons_not_mem _ _ _ _ (by rw [hb3]; simp)]
    rw [hb3]
    rw [keepFirstBy_cons_mem _ _ _ _ (by rw [hb2]; simp)]
    rw [keepFirstBy_cons_mem _ _ _ _ (by rw [hb1]; simp)]
    rw [keepFirstBy_nil]
  have hord : orderedMatches substrMatch (c7Db k) (str "a") { timeWindow := 10 } = [m4, m3] := by
    unfold orderedMatches
    dsimp only
    rw [if_pos (show (10 : Int) > 0 by decide)]
    exact hdedup
  constructor
  · unfold searchCasts
    rw [hord]
    simp
  · unfold searchCasts
    rw [hord]
    simp [sqlSlice, projectRow, hm4, hm3, c9Frag]

/-- C7 counterexample: for the base timestamp T = 540000 ms (9 minutes) — a
value not aligned to the 10-minute grid — the same four fragments produce 3
results, not 2: T falls in bucket 0 while T+2min and T+9min fall in bucket 1. -/
theorem timeWindowGroupingCounterexample :
    (searchCasts substrMatch c7CxDb (str "a") { timeWindow := 10 }).total = 3 ∧
    (c7CxDb.files.map (fun r => r.timestamp)) =
      [some 540000, some (540000 + 120000), some (540000 + 540000),
       some (540000 + 900000)] := by
  refine ⟨by decide, by decide⟩



/-!  ## C2: idempotence of a second reindex pass  -/

theorem find?_append_left {α : Type} {p : α → Bool} {l l' : List α} {x : α}
    (h : l.find? p = some x) : (l ++ l').find? p = some x := by
  simp [List.find?_append, h]

theorem find?_filter_subset {α : Type} {p q : α → Bool} (l : List α)
    (h : ∀ x, p x = true → q x = true) : (l.filter q).find? p = l.find? p := by
  induction l with
  | nil => rfl
  | cons a t ih =>
    rw [List.filter_cons]
    cases hp : p a
    · by_cases hq : q a = true
      · rw [if_pos hq, List.find?_cons_of_neg _ (by simp [hp]), ih,
          List.find?_cons_of_neg _ (by simp [hp])]
      · rw [if_neg hq, ih, List.find?_cons_of_neg _ (by simp [hp])]
    · rw [if_pos (h a hp), List.find?_cons_of_pos _ hp, List.find?_cons_of_pos _ hp]

theorem find?_filter_compl_none {α : Type} {p q : α → Bool} (l : List α)
    (h : ∀ x, q x = true → p x = false) : (l.filter q).find? p = none := by
  rw [List.find?_eq_none]
  intro x hx
  rw [h x (List.of_mem_filter hx)]
  exact Bool.false_ne_true

theorem find?_map_comm {α : Type} {f : α → α} {p : α → Bool} (l : List α)
    (h : ∀ x, p (f x) = p x) : (l.map f).find? p = (l.find? p).map f := by
  induction l with
  | nil => rfl
  | cons a t ih =>
    rw [List.map_cons]
    cases hp : p a
    · rw [List.find?_cons_of_neg _ (by simp [h, hp]),
        List.find?_cons_of_neg _ (by simp [hp]), ih]
    · rw [List.find?_cons_of_pos _ (by simp [h, hp]), List.find?_cons_of_pos _ hp,
        Option.map_some']

theorem find?_eq_some_of_mem_unique {α : Type} {p : α → Bool} {l : List α} {x : α}
    (hx : x ∈ l) (hpx : p x = true) (h : ∀ y ∈ l, p y = true → y = x) :
    l.find? p = some x := by
  induction l with
  | nil => exact absurd hx (List.not_mem_nil x)
  | cons a t ih =>
    cases hp : p a
    · rw [List.find?_cons_of_neg _ (by simp [hp])]
      have hxt : x ∈ t := by
        rcases List.mem_cons.mp hx with rfl | hxt
        · rw [hpx] at hp; exact Bool.noConfusion hp
        · exact hxt
      exact ih hxt (fun y hy hpy => h y (List.mem_cons_of_mem a hy) hpy)
    · rw [List.find?_cons_of_pos _ hp, h a (List.mem_cons_self a t) hp]

theorem find?_append_right_single {α : Type} {p : α → Bool} {l : List α} {r : α}
    (hl : l.find? p = none) (hr : p r = true) : (l ++ [r]).find? p = some r := by
  simp [List.find?_append, hl, List.find?_cons_of_pos _ hr]

theorem findFile_mem {db : DbState} {p : Str} {rec : FileRec}
    (h : findFile db p = some rec) : rec ∈ db.files ∧ rec.path = p := by
  unfold findFile at h
  have h1 := List.mem_of_find?_eq_some h
  have h2 := List.find?_some h
  exact ⟨h1, of_decide_eq_true h2⟩

theorem findFileById_of_mem {db : DbState} {rec : FileRec}
    (hwf : WfDb db) (hm : rec ∈ db.files) : findFileById db rec.id = some rec := by
  unfold findFileById
  refine find?_eq_some_of_mem_unique hm (by simp) ?_
  intro y hy hpy
  have hid : y.id = rec.id := of_decide_eq_true hpy
  by_contra hne
  exact (hwf.2.forall (fun {a b} hab => fun e => hab e.symm) hy hm hne) hid

theorem wf_map_idPreserving (db : DbState) (f : FileRec → FileRec)
    (hf : ∀ r, (f r).id = r.id) (hwf : WfDb db) :
    WfDb { db with files := db.files.map f } := by
  constructor
  · intro r hr
    obtain ⟨x, hx, rfl⟩ := List.mem_map.mp hr
    rw [hf]
    exact hwf.1 x hx
  · refine List.pairwise_map.mpr (hwf.2.imp ?_)
    intro a b hab
    rw [hf, hf]
    exact hab

theorem findFile_markFile (db : DbState) (i : Nat) (p : Str) :
    findFile (markFileCompleted db i) p =
      (findFile db p).map (fun r => if r.id = i then { r with completed := true } else r) := by
  unfold markFileCompleted findFile
  exact findFile_map_pathPreserving _ (fun r => by split <;> rfl) db.files p

theorem findFileById_markFile (db : DbState) (i j : Nat) :
    findFileById (markFileCompleted db i) j =
      (findFileById db j).map (fun r => if r.id = i then { r with completed := true } else r) := by
  unfold markFileCompleted findFileById
  exact find?_map_comm db.files (fun x => by split <;> rfl)

theorem findStrat_markStrategy_same (db : DbState) (i : Nat) (sid sver : Str) (now : Int) :
    findStrat (markStrategyCompleted db i sid sver now) i sid sver =
      some { fileId := i, strategyId := sid, strategyVersion := sver
           , completedAt := some now } := by
  unfold markStrategyCompleted findStrat
  dsimp only
  refine find?_append_right_single (find?_filter_compl_none db.strategies ?_) (by simp)
  intro x hx
  simp only [decide_eq_true_eq] at hx
  simpa using hx

theorem findStrat_markStrategy_other (db : DbState) (i : Nat) (sid sver : Str) (now : Int)
    (j : Nat) (tid tver : Str) (hne : ¬(j = i ∧ tid = sid ∧ tver = sver)) :
    findStrat (markStrategyCompleted db i sid sver now) j tid tver =
      findStrat db j tid tver := by
  unfold markStrategyCompleted findStrat
  dsimp only
  rw [List.find?_append, find?_filter_subset db.strategies ?hsub]
  case hsub =>
    intro x hpx
    obtain ⟨f1, f2, f3⟩ := of_decide_eq_true hpx
    refine decide_eq_true ?_
    rintro ⟨e1, e2, e3⟩
    exact hne ⟨f1.symm.trans e1, f2.symm.trans e2, f3.symm.trans e3⟩
  cases hf : db.strategies.find? (fun s =>
      decide (s.fileId = j ∧ s.strategyId = tid ∧ s.strategyVersion = tver)) with
  | some v => rfl
  | none =>
    simp [Option.orElse]
    intro e1 e2 e3
    exact hne ⟨e1.symm, e2.symm, e3.symm⟩

theorem registerFile_unchanged {db : DbState} (now : Int) {p : Str} (fn : Str)
    {st : FileStats} {rec : FileRec}
    (hfind : findFile db p = some rec) (hc : unchangedCheck rec st = true) :
    registerFile db now p fn st = (rec.id, db) := by
  unfold registerFile
  rw [hfind]
  dsimp only
  rw [if_pos hc]

theorem registerFile_changed {db : DbState} (now : Int) {p : Str} (fn : Str)
    {st : FileStats} {rec : FileRec}
    (hfind : findFile db p = some rec) (hc : unchangedCheck rec st = false) :
    registerFile db now p fn st =
      (rec.id, { db with files := db.files.map (fun r =>
        if r.id = rec.id then
          { r with fileSize := some st.size, fileMtime := st.mtime,
                   indexedAt := some now, completed := false }
        else r) }) := by
  unfold registerFile
  rw [hfind]
  dsimp only
  rw [if_neg (by simp [hc])]

theorem indexCastFileTx_skip (env : Env) (now : Int) (db : DbState) (p fn : Str)
    (strat : Strategy) (st : FileStats) (fileId : Nat) (db1 : DbState)
    (hreg : registerFile db now p fn st = (fileId, db1))
    (hski : isFileIndexed db1 fileId strat.id strat.version = true)
    (hnm : isModifiedCheck (findFileById db1 fileId) st = false) :
    indexCastFileTx env none now db p fn strat st = .ok (true, db1, 0) := by
  unfold indexCastFileTx
  rw [hreg]
  dsimp only
  rw [hski, hnm]
  rfl

theorem indexCastFileTx_full (env : Env) (now : Int) (db : DbState) (p fn : Str)
    (strat : Strategy) (st : FileStats) (fileId : Nat) (db1 : DbState)
    (evts : List CastEvent)
    (hreg : registerFile db now p fn st = (fileId, db1))
    (hns : isFileIndexed db1 fileId strat.id strat.version = false)
    (hev : env.events p = some evts) :
    indexCastFileTx env none now db p fn strat st =
      .ok (true,
        markFileCompleted
          (markStrategyCompleted
            { clearPartialIndexing db1 fileId with
                fragments := (clearPartialIndexing db1 fileId).fragments ++
                  eventFragments fileId ((parseFilenameDate fn).map (fun q => q.timestampMs))
                    (tagsStringOf (parseFilenameDate fn)) evts }
            fileId strat.id strat.version now)
          fileId,
        (eventFragments fileId ((parseFilenameDate fn).map (fun q => q.timestampMs))
          (tagsStringOf (parseFilenameDate fn)) evts).length) := by
  unfold indexCastFileTx
  rw [hreg]
  dsimp only
  rw [hns, hev]
  dsimp only [Bool.false_and]
  rfl

theorem indexCastFileTx_evNone (env : Env) (now : Int) (db : DbState) (p fn : Str)
    (strat : Strategy) (st : FileStats) (fileId : Nat) (db1 : DbState)
    (hreg : registerFile db now p fn st = (fileId, db1))
    (hns : isFileIndexed db1 fileId strat.id strat.version = false)
    (hev : env.events p = none) :
    indexCastFileTx env none now db p fn strat st = .error () := by
  unfold indexCastFileTx
  rw [hreg]
  dsimp only
  rw [hns, hev]
  dsimp only [Bool.false_and]
  rfl

theorem isModifiedCheck_of_unchanged {rec : FileRec} {st : FileStats}
    (hc : unchangedCheck rec st = true) : isModifiedCheck (some rec) st = false := by
  obtain ⟨h1, lm, sm, h2, h3, h4⟩ := (unchangedCheck_iff rec st).mp hc
  unfold isModifiedCheck
  simp [h1, h2, h3]
  omega

theorem isFileIndexed_append_fresh {db : DbState} {r : FileRec}
    (hid : ∀ x ∈ db.files, x.id ≠ r.id) (hc : r.completed = false) (sid sver : Str) :
    isFileIndexed { db with nextId := db.nextId + 1, files := db.files ++ [r] }
      r.id sid sver = false := by
  unfold isFileIndexed findFileById
  dsimp only
  rw [findById_append_fresh db.files r hid]
  dsimp only
  rw [if_pos hc]

theorem isFileIndexed_afterUpdate {db : DbState} {rec : FileRec} (hwf : WfDb db)
    (hm : rec ∈ db.files) (now : Int) (st : FileStats) (sid sver : Str) :
    isFileIndexed { db with files := db.files.map (fun r =>
        if r.id = rec.id then
          { r with fileSize := some st.size, fileMtime := st.mtime,
                   indexedAt := some now, completed := false }
        else r) } rec.id sid sver = false := by
  have h0 : findFileById db rec.id = some rec := findFileById_of_mem hwf hm
  unfold findFileById at h0
  unfold isFileIndexed findFileById
  dsimp only
  rw [find?_map_comm db.files (fun x => by split <;> rfl), h0, Option.map_some']
  dsimp only
  rw [if_pos rfl]
  rfl

theorem indexCastFile_statsNone (env : Env) (fault : Option Step) (now : Int)
    (db : DbState) (e : FileEntry) (strat : Strategy)
    (hstats : env.stats e.path = none) :
    indexCastFile env fault now db e strat = (false, db, 0) := by
  unfold indexCastFile
  rw [hstats]

theorem indexCastFile_evNone (env : Env) (now : Int) (db : DbState) (e : FileEntry)
    (strat : Strategy) (st : FileStats)
    (hwf : WfDb db)
    (hstats : env.stats e.path = some st)
    (hev : env.events e.path = none) :
    ∃ b, indexCastFile env none now db e strat = (b, db, 0) := by
  cases hfind : findFile db e.path with
  | none =>
    have hid : ∀ x ∈ db.files, x.id ≠ db.nextId := fun x hx => Nat.ne_of_lt (hwf.1 x hx)
    have hreg : registerFile db now e.path (entryFilename e) st =
        (db.nextId,
         { db with nextId := db.nextId + 1, files := db.files ++
             [{ id := db.nextId, path := e.path, filename := entryFilename e
              , date := (parseFilenameDate (entryFilename e)).map (fun q => q.date)
              , time := (parseFilenameDate (entryFilename e)).map (fun q => q.time)
              , timestamp := (parseFilenameDate (entryFilename e)).map (fun q => q.timestampMs)
              , fileSize := some st.size, fileMtime := st.mtime
              , indexedAt := some now, completed := false }] }) := by
      unfold registerFile
      rw [hfind]
    have hns := @isFileIndexed_append_fresh db
      { id := db.nextId, path := e.path, filename := entryFilename e
      , date := (parseFilenameDate (entryFilename e)).map (fun q => q.date)
      , time := (parseFilenameDate (entryFilename e)).map (fun q => q.time)
      , timestamp := (parseFilenameDate (entryFilename e)).map (fun q => q.timestampMs)
      , fileSize := some st.size, fileMtime := st.mtime
      , indexedAt := some now, completed := false }
      hid rfl strat.id strat.version
    have htx := indexCastFileTx_evNone env now db e.path (entryFilename e) strat st _ _
      hreg hns hev
    refine ⟨false, ?_⟩
    unfold indexCastFile
    rw [hstats]
    dsimp only
    rw [htx]
  | some rec =>
    have hmem := findFile_mem hfind
    have hbyid : findFileById db rec.id = some rec := findFileById_of_mem hwf hmem.1
    cases hc : unchangedCheck rec st with
    | true =>
      have hreg := registerFile_unchanged now (entryFilename e) hfind hc
      cases hski : isFileIndexed db rec.id strat.id strat.version with
      | true =>
        have hnm : isModifiedCheck (findFileById db rec.id) st = false := by
          rw [hbyid]
          exact isModifiedCheck_of_unchanged hc
        have htx := indexCastFileTx_skip env now db e.path (entryFilename e) strat st
          rec.id db hreg hski hnm
        refine ⟨true, ?_⟩
        unfold indexCastFile
        rw [hstats]
        dsimp only
        rw [htx]
      | false =>
        have htx := indexCastFileTx_evNone env now db e.path (entryFilename e) strat st
          rec.id db hreg hski hev
        refine ⟨false, ?_⟩
        unfold indexCastFile
        rw [hstats]
        dsimp only
        rw [htx]
    | false =>
      have hreg := registerFile_changed now (entryFilename e) hfind hc
      have hns := isFileIndexed_afterUpdate hwf hmem.1 now st strat.id strat.version
      have htx := indexCastFileTx_evNone env now db e.path (entryFilename e) strat st
        rec.id _ hreg hns hev
      refine ⟨false, ?_⟩
      unfold indexCastFile
      rw [hstats]
      dsimp only
      rw [htx]

theorem indexCastFile_upToDate (env : Env) (now : Int) (db : DbState) (e : FileEntry)
    (strat : Strategy) (h : UpToDate env db strat e) :
    indexCastFile env none now db e strat = (true, db, 0) := by
  obtain ⟨st, lm, rec, sm, srow, hstats, hlm, hfind, hbyid, hcomp, hsz, hmt, hle,
    hsrow, hsome⟩ := h
  have hc : unchangedCheck rec st = true :=
    (unchangedCheck_iff rec st).mpr ⟨hsz, lm, sm, hlm, hmt, hle⟩
  have hreg := registerFile_unchanged now (entryFilename e) hfind hc
  have hski : isFileIndexed db rec.id strat.id strat.version = true := by
    unfold isFileIndexed
    rw [hbyid]
    dsimp only
    rw [if_neg (by simp [hcomp]), hsrow]
    exact hsome
  have hnm : isModifiedCheck (findFileById db rec.id) st = false := by
    rw [hbyid]
    exact isModifiedCheck_of_unchanged hc
  have htx := indexCastFileTx_skip env now db e.path (entryFilename e) strat st
    rec.id db hreg hski hnm
  unfold indexCastFile
  rw [hstats]
  dsimp only
  rw [htx]

theorem findFile_after_full (db1 : DbState) (i : Nat) (sid sver : Str) (now : Int)
    (frags : List Fragment) (p : Str) :
    findFile (markFileCompleted (markStrategyCompleted
        { clearPartialIndexing db1 i with
            fragments := (clearPartialIndexing db1 i).fragments ++ frags }
        i sid sver now) i) p =
      (findFile db1 p).map (fun r => if r.id = i then { r with completed := true } else r) := by
  rw [findFile_markFile]
  rfl

theorem findFileById_after_full (db1 : DbState) (i : Nat) (sid sver : Str) (now : Int)
    (frags : List Fragment) (j : Nat) :
    findFileById (markFileCompleted (markStrategyCompleted
        { clearPartialIndexing db1 i with
            fragments := (clearPartialIndexing db1 i).fragments ++ frags }
        i sid sver now) i) j =
      (findFileById db1 j).map (fun r => if r.id = i then { r with completed := true } else r) := by
  rw [findFileById_markFile]
  rfl

theorem findStrat_after_full_same (db1 : DbState) (i : Nat) (sid sver : Str) (now : Int)
    (frags : List Fragment) :
    findStrat (markFileCompleted (markStrategyCompleted
        { clearPartialIndexing db1 i with
            fragments := (clearPartialIndexing db1 i).fragments ++ frags }
        i sid sver now) i) i sid sver =
      some { fileId := i, strategyId := sid, strategyVersion := sver
           , completedAt := some now } := by
  have h := findStrat_markStrategy_same
    { clearPartialIndexing db1 i with
        fragments := (clearPartialIndexing db1 i).fragments ++ frags } i sid sver now
  exact h

theorem findStrat_after_full_other (db1 : DbState) (i : Nat) (sid sver : Str) (now : Int)
    (frags : List Fragment) (j : Nat) (tid tver : Str)
    (hne : ¬(j = i ∧ tid = sid ∧ tver = sver)) :
    findStrat (markFileCompleted (markStrategyCompleted
        { clearPartialIndexing db1 i with
            fragments := (clearPartialIndexing db1 i).fragments ++ frags }
        i sid sver now) i) j tid tver = findStrat db1 j tid tver := by
  have h := findStrat_markStrategy_other
    { clearPartialIndexing db1 i with
        fragments := (clearPartialIndexing db1 i).fragments ++ frags } i sid sver now
    j tid tver hne
  exact h

theorem wf_after_full (db1 : DbState) (i : Nat) (sid sver : Str) (now : Int)
    (frags : List Fragment) (hwf1 : WfDb db1) :
    WfDb (markFileCompleted (markStrategyCompleted
        { clearPartialIndexing db1 i with
            fragments := (clearPartialIndexing db1 i).fragments ++ frags }
        i sid sver now) i) :=
  wf_map_idPreserving db1 (fun r => if r.id = i then { r with completed := true } else r)
    (fun r => by dsimp only; split <;> rfl) hwf1

theorem versions_after_full (db1 : DbState) (i : Nat) (sid sver : Str) (now : Int)
    (frags : List Fragment) :
    (markFileCompleted (markStrategyCompleted
        { clearPartialIndexing db1 i with
            fragments := (clearPartialIndexing db1 i).fragments ++ frags }
        i sid sver now) i).versions = db1.versions := rfl

theorem indexCastFile_establish (env : Env) (now : Int) (db : DbState) (e : FileEntry)
    (strat : Strategy) (st : FileStats) (lm : Int) (evts : List CastEvent)
    (hwf : WfDb db)
    (hstats : env.stats e.path = some st)
    (hlm : st.mtime = some lm)
    (hev : env.events e.path = some evts) :
    WfDb (indexCastFile env none now db e strat).2.1 ∧
    (indexCastFile env none now db e strat).2.1.versions = db.versions ∧
    UpToDate env (indexCastFile env none now db e strat).2.1 strat e ∧
    ∀ s' e', UpToDate env db s' e' →
      UpToDate env (indexCastFile env none now db e strat).2.1 s' e' := by
  cases hfind : findFile db e.path with
  | none =>
    have hres := indexCastFile_freshPath env now db e strat st evts hwf hfind hstats hev
    rw [hres]
    dsimp only
    have hid : ∀ x ∈ db.files, x.id ≠ db.nextId := fun x hx => Nat.ne_of_lt (hwf.1 x hx)
    refine ⟨⟨?_, ?_⟩, rfl, ?_, ?_⟩
    · intro r hr
      rcases List.mem_append.mp hr with hr | hr
      · exact Nat.lt_succ_of_lt (hwf.1 r hr)
      · rw [List.mem_singleton.mp hr]
        exact Nat.lt_succ_self db.nextId
    · refine List.pairwise_append.mpr ⟨hwf.2, List.pairwise_singleton _ _, ?_⟩
      intro a ha b hb
      rw [List.mem_singleton.mp hb]
      exact hid a ha
    · refine ⟨st, lm,
        { id := db.nextId, path := e.path, filename := entryFilename e
        , date := (parseFilenameDate (entryFilename e)).map (fun q => q.date)
        , time := (parseFilenameDate (entryFilename e)).map (fun q => q.time)
        , timestamp := (parseFilenameDate (entryFilename e)).map (fun q => q.timestampMs)
        , fileSize := some st.size, fileMtime := st.mtime
        , indexedAt := some now, completed := true }, lm,
        { fileId := db.nextId, strategyId := strat.id
        , strategyVersion := strat.version, completedAt := some now },
        hstats, hlm, ?_, ?_, rfl, rfl, hlm, le_refl lm, ?_, rfl⟩
      · unfold findFile at hfind ⊢
        exact find?_append_right_single hfind (by simp)
      · unfold findFileById
        exact findById_append_fresh db.files _ hid
      · unfold findStrat
        dsimp only
        refine find?_append_right_single (find?_filter_compl_none db.strategies ?_) (by simp)
        intro x hx
        exact decide_eq_false (of_decide_eq_true hx)
    · rintro s' e' ⟨st', lm', rec2, sm', srow2, hstats', hlm', hfind2, hbyid2, hcomp2,
        hsz2, hmt2, hle2, hsrow2, hsome2⟩
      have hmem2 := findFile_mem hfind2
      have hne2 : rec2.id ≠ db.nextId := Nat.ne_of_lt (hwf.1 rec2 hmem2.1)
      refine ⟨st', lm', rec2, sm', srow2, hstats', hlm', ?_, ?_, hcomp2,
        hsz2, hmt2, hle2, ?_, hsome2⟩
      · unfold findFile at hfind2 ⊢
        exact find?_append_left hfind2
      · unfold findFileById at hbyid2 ⊢
        exact find?_append_left hbyid2
      · unfold findStrat at hsrow2 ⊢
        dsimp only
        refine find?_append_left ?_
        rw [find?_filter_subset db.strategies ?hsub]
        case hsub =>
          intro x hx
          have h2 := of_decide_eq_true hx
          refine decide_eq_true ?_
          rintro ⟨k1, k2, k3⟩
          exact hne2 (h2.1.symm.trans k1)
        exact hsrow2
  | some rec =>
    have hmem := findFile_mem hfind
    have hbyid : findFileById db rec.id = some rec := findFileById_of_mem hwf hmem.1
    cases hc : unchangedCheck rec st with
    | true =>
      obtain ⟨hsz, lm0, sm, hlm0, hmtr, hle0⟩ := (unchangedCheck_iff rec st).mp hc
      have hlmeq : lm0 = lm := Option.some.inj (hlm0.symm.trans hlm)
      have hle : lm ≤ sm := hlmeq ▸ hle0
      have hreg := registerFile_unchanged now (entryFilename e) hfind hc
      cases hski : isFileIndexed db rec.id strat.id strat.version with
      | true =>
        unfold isFileIndexed at hski
        rw [hbyid] at hski
        dsimp only at hski
        cases hcomp : rec.completed with
        | false =>
          rw [if_pos hcomp] at hski
          exact absurd hski (by simp)
        | true =>
          rw [if_neg (by simp [hcomp])] at hski
          cases hsrow : findStrat db rec.id strat.id strat.version with
          | none =>
            rw [hsrow] at hski
            exact absurd hski (by simp)
          | some srow =>
            rw [hsrow] at hski
            have hUTD : UpToDate env db strat e :=
              ⟨st, lm, rec, sm, srow, hstats, hlm, hfind, hbyid, hcomp, hsz, hmtr,
                hle, hsrow, hski⟩
            have hres := indexCastFile_upToDate env now db e strat hUTD
            rw [hres]
            exact ⟨hwf, rfl, hUTD, fun s' e' h' => h'⟩
      | false =>
        have htx := indexCastFileTx_full env now db e.path (entryFilename e) strat st
          rec.id db evts hreg hski hev
        have hres : indexCastFile env none now db e strat =
            (true,
             markFileCompleted
               (markStrategyCompleted
                 { clearPartialIndexing db rec.id with
                     fragments := (clearPartialIndexing db rec.id).fragments ++
                       eventFragments rec.id
                         ((parseFilenameDate (entryFilename e)).map (fun q => q.timestampMs))
                         (tagsStringOf (parseFilenameDate (entryFilename e))) evts }
                 rec.id strat.id strat.version now)
               rec.id,
             (eventFragments rec.id
               ((parseFilenameDate (entryFilename e)).map (fun q => q.timestampMs))
               (tagsStringOf (parseFilenameDate (entryFilename e))) evts).length) := by
          unfold indexCastFile
          rw [hstats]
          dsimp only
          rw [htx]
        rw [hres]
        dsimp only
        refine ⟨wf_after_full db rec.id strat.id strat.version now _ hwf, rfl, ?_, ?_⟩
        · refine ⟨st, lm, { rec with completed := true }, sm,
            { fileId := rec.id, strategyId := strat.id
            , strategyVersion := strat.version, completedAt := some now },
            hstats, hlm, ?_, ?_, rfl, hsz, hmtr, hle, ?_, rfl⟩
          · rw [findFile_after_full, hfind, Option.map_some']
            rw [if_pos rfl]
          · rw [findFileById_after_full, hbyid, Option.map_some']
            rw [if_pos rfl]
          · exact findStrat_after_full_same db rec.id strat.id strat.version now _
        · rintro s' e' ⟨st', lm', rec2, sm', srow2, hstats', hlm', hfind2, hbyid2, hcomp2,
            hsz2, hmt2, hle2, hsrow2, hsome2⟩
          by_cases hkid : rec2.id = rec.id
          · by_cases hkey : s'.id = strat.id ∧ s'.version = strat.version
            · refine ⟨st', lm', { rec2 with completed := true }, sm',
                { fileId := rec.id, strategyId := strat.id
                , strategyVersion := strat.version, completedAt := some now },
                hstats', hlm', ?_, ?_, rfl, hsz2, hmt2, hle2, ?_, rfl⟩
              · rw [findFile_after_full, hfind2, Option.map_some']
                rw [if_pos hkid]
              · rw [findFileById_after_full, hbyid2, Option.map_some']
                rw [if_pos hkid]
              · rw [show ({ rec2 with completed := true } : FileRec).id = rec.id from hkid,
                  hkey.1, hkey.2]
                exact findStrat_after_full_same db rec.id strat.id strat.version now _
            · refine ⟨st', lm', { rec2 with completed := true }, sm', srow2,
                hstats', hlm', ?_, ?_, rfl, hsz2, hmt2, hle2, ?_, hsome2⟩
              · rw [findFile_after_full, hfind2, Option.map_some']
                rw [if_pos hkid]
              · rw [findFileById_after_full, hbyid2, Option.map_some']
                rw [if_pos hkid]
              · rw [findStrat_after_full_other db rec.id strat.id strat.version now _
                  _ s'.id s'.version (fun hk => hkey ⟨hk.2.1, hk.2.2⟩)]
                rw [show ({ rec2 with completed := true } : FileRec).id = rec2.id from rfl]
                exact hsrow2
          · refine ⟨st', lm', rec2, sm', srow2, hstats', hlm', ?_, ?_, hcomp2,
              hsz2, hmt2, hle2, ?_, hsome2⟩
            · rw [findFile_after_full, hfind2, Option.map_some']
              rw [if_neg hkid]
            · rw [findFileById_after_full, hbyid2, Option.map_some']
              rw [if_neg hkid]
            · rw [findStrat_after_full_other db rec.id strat.id strat.version now _
                _ s'.id s'.version (fun hk => hkid hk.1)]
              exact hsrow2
    | false =>
      have hreg := registerFile_changed now (entryFilename e) hfind hc
      have hupath : ∀ r : FileRec,
          ((fun r => if r.id = rec.id then
              { r with fileSize := some st.size, fileMtime := st.mtime,
                       indexedAt := some now, completed := false }
            else r) r).path = r.path := fun r => by dsimp only; split <;> rfl
      have huid : ∀ (j : Nat) (r : FileRec),
          decide (((fun r => if r.id = rec.id then
              { r with fileSize := some st.size, fileMtime := st.mtime,
                       indexedAt := some now, completed := false }
            else r) r).id = j) = decide (r.id = j) := fun j r => by
        by_cases h : r.id = rec.id <;> simp [h]
      have hwf1 : WfDb { db with files := db.files.map (fun r =>
          if r.id = rec.id then
            { r with fileSize := some st.size, fileMtime := st.mtime,
                     indexedAt := some now, completed := false }
          else r) } :=
        wf_map_idPreserving db _ (fun r => by
          by_cases h : r.id = rec.id <;> simp [h]) hwf
      have hns := isFileIndexed_afterUpdate hwf hmem.1 now st strat.id strat.version
      have htx := indexCastFileTx_full env now db e.path (entryFilename e) strat st
        rec.id _ evts hreg hns hev
      have hres : indexCastFile env none now db e strat =
          (true,
           markFileCompleted
             (markStrategyCompleted
               { clearPartialIndexing { db with files := db.files.map (fun r =>
                   if r.id = rec.id then
                     { r with fileSize := some st.size, fileMtime := st.mtime,
                              indexedAt := some now, completed := false }
                   else r) } rec.id with
                   fragments := (clearPartialIndexing { db with files := db.files.map (fun r =>
                       if r.id = rec.id then
                         { r with fileSize := some st.size, fileMtime := st.mtime,
                                  indexedAt := some now, completed := false }
                       else r) } rec.id).fragments ++
                     eventFragments rec.id
                       ((parseFilenameDate (entryFilename e)).map (fun q => q.timestampMs))
                       (tagsStringOf (parseFilenameDate (entryFilename e))) evts }
               rec.id strat.id strat.version now)
             rec.id,
           (eventFragments rec.id
             ((parseFilenameDate (entryFilename e)).map (fun q => q.timestampMs))
             (tagsStringOf (parseFilenameDate (entryFilename e))) evts).length) := by
        unfold indexCastFile
        rw [hstats]
        dsimp only
        rw [htx]
      rw [hres]
      dsimp only
      have hfind1 : findFile { db with files := db.files.map (fun r =>
          if r.id = rec.id then
            { r with fileSize := some st.size, fileMtime := st.mtime,
                     indexedAt := some now, completed := false }
          else r) } e.path =
          some { rec with fileSize := some st.size, fileMtime := st.mtime,
                          indexedAt := some now, completed := false } := by
        unfold findFile at hfind ⊢
        dsimp only
        rw [findFile_map_pathPreserving _ hupath, hfind, Option.map_some']
        rw [if_pos rfl]
      have hbyid1 : findFileById { db with files := db.files.map (fun r =>
          if r.id = rec.id then
            { r with fileSize := some st.size, fileMtime := st.mtime,
                     indexedAt := some now, completed := false }
          else r) } rec.id =
          some { rec with fileSize := some st.size, fileMtime := st.mtime,
                          indexedAt := some now, completed := false } := by
        unfold findFileById at hbyid ⊢
        dsimp only
        rw [find?_map_comm db.files (huid rec.id), hbyid, Option.map_some']
        rw [if_pos rfl]
      refine ⟨wf_after_full _ rec.id strat.id strat.version now _ hwf1, rfl, ?_, ?_⟩
      · refine ⟨st, lm,
          { rec with fileSize := some st.size, fileMtime := st.mtime,
                     indexedAt := some now, completed := true }, lm,
          { fileId := rec.id, strategyId := strat.id
          , strategyVersion := strat.version, completedAt := some now },
          hstats, hlm, ?_, ?_, rfl, rfl, hlm, le_refl lm, ?_, rfl⟩
        · rw [findFile_after_full, hfind1, Option.map_some']
          dsimp only
          rw [if_pos rfl]
        · rw [findFileById_after_full, hbyid1, Option.map_some']
          dsimp only
          rw [if_pos rfl]
        · exact findStrat_after_full_same _ rec.id strat.id strat.version now _
      · rintro s' e' ⟨st', lm', rec2, sm', srow2, hstats', hlm', hfind2, hbyid2, hcomp2,
          hsz2, hmt2, hle2, hsrow2, hsome2⟩
        by_cases hpe : e'.path = e.path
        · rw [hpe] at hfind2 hstats'
          have hrr : rec = rec2 := Option.some.inj (hfind.symm.trans hfind2)
          have hss : st = st' := Option.some.inj (hstats.symm.trans hstats')
          have hc2 : unchangedCheck rec st = true :=
            (unchangedCheck_iff rec st).mpr
              ⟨by rw [hrr, hss]; exact hsz2, lm', sm',
               by rw [hss]; exact hlm', by rw [hrr]; exact hmt2, hle2⟩
          exact absurd hc2 (by simp [hc])
        · have hmem2 := findFile_mem hfind2
          have hneq : rec2 ≠ rec := by
            intro h
            exact hpe (hmem2.2.symm.trans (h ▸ hmem.2) )
          have hid2 : rec2.id ≠ rec.id := by
            have hsym : Symmetric (fun (a b : FileRec) => a.id ≠ b.id) :=
              fun a b hab h2 => hab h2.symm
            exact hwf.2.forall hsym hmem2.1 hmem.1 hneq
          have hfind2a : findFile { db with files := db.files.map (fun r =>
              if r.id = rec.id then
                { r with fileSize := some st.size, fileMtime := st.mtime,
                         indexedAt := some now, completed := false }
              else r) } e'.path = some rec2 := by
            unfold findFile at hfind2 ⊢
            dsimp only
            rw [findFile_map_pathPreserving _ hupath, hfind2, Option.map_some']
            rw [if_neg hid2]
          have hbyid2a : findFileById { db with files := db.files.map (fun r =>
              if r.id = rec.id then
                { r with fileSize := some st.size, fileMtime := st.mtime,
                         indexedAt := some now, completed := false }
              else r) } rec2.id = some rec2 := by
            unfold findFileById at hbyid2 ⊢
            dsimp only
            rw [find?_map_comm db.files (huid rec2.id), hbyid2, Option.map_some']
            rw [if_neg hid2]
          refine ⟨st', lm', rec2, sm', srow2, hstats', hlm', ?_, ?_, hcomp2,
            hsz2, hmt2, hle2, ?_, hsome2⟩
          · rw [findFile_after_full, hfind2a, Option.map_some']
            rw [if_neg hid2]
          · rw [findFileById_after_full, hbyid2a, Option.map_some']
            rw [if_neg hid2]
          · rw [findStrat_after_full_other _ rec.id strat.id strat.version now _
              _ s'.id s'.version (fun hk => hid2 hk.1)]
            exact hsrow2

theorem processFiles_cons (env : Env) (faults : Str → Str → Option Step) (now : Int)
    (strat : Strategy) (db : DbState) (n : Nat) (e : FileEntry) (rest : List FileEntry) :
    processFiles env faults now strat (db, n) (e :: rest) =
      processFiles env faults now strat
        ((indexCastFile env (faults e.path strat.id) now db e strat).2.1,
         n + (indexCastFile env (faults e.path strat.id) now db e strat).2.2) rest := rfl

theorem processFiles_establish (env : Env) (now : Int) (strat : Strategy) :
    ∀ (es : List FileEntry) (db : DbState) (n : Nat), WfDb db →
      (∀ e ∈ es, ∀ st, env.stats e.path = some st → st.mtime.isSome = true) →
      WfDb (processFiles env noFaults now strat (db, n) es).1 ∧
      (processFiles env noFaults now strat (db, n) es).1.versions = db.versions ∧
      (∀ e ∈ es, ∀ st evts, env.stats e.path = some st → env.events e.path = some evts →
        UpToDate env (processFiles env noFaults now strat (db, n) es).1 strat e) ∧
      (∀ s' e', UpToDate env db s' e' →
        UpToDate env (processFiles env noFaults now strat (db, n) es).1 s' e') := by
  intro es
  induction es with
  | nil =>
    intro db n hwf _
    exact ⟨hwf, rfl, fun e he => absurd he (List.not_mem_nil e), fun s' e' h => h⟩
  | cons e rest ih =>
    intro db n hwf hm
    rw [processFiles_cons]
    have hmrest : ∀ e' ∈ rest, ∀ st, env.stats e'.path = some st → st.mtime.isSome = true :=
      fun e' he' => hm e' (List.mem_cons_of_mem e he')
    cases hstats : env.stats e.path with
    | none =>
      have hstep := indexCastFile_statsNone env (noFaults e.path strat.id) now db e strat hstats
      rw [hstep]
      have hih := ih db (n + 0) hwf hmrest
      refine ⟨hih.1, hih.2.1, ?_, hih.2.2.2⟩
      intro e' he' st evts hst hev
      rcases List.mem_cons.mp he' with rfl | he'
      · rw [hstats] at hst
        exact Option.noConfusion hst
      · exact hih.2.2.1 e' he' st evts hst hev
    | some st =>
      have hmt : st.mtime.isSome = true := hm e (List.mem_cons_self e rest) st hstats
      obtain ⟨lm, hlm⟩ := Option.isSome_iff_exists.mp hmt
      cases hev : env.events e.path with
      | none =>
        obtain ⟨b, hstep⟩ := indexCastFile_evNone env now db e strat st hwf hstats hev
        have hstep' : indexCastFile env (noFaults e.path strat.id) now db e strat =
            (b, db, 0) := hstep
        rw [hstep']
        have hih := ih db (n + 0) hwf hmrest
        refine ⟨hih.1, hih.2.1, ?_, hih.2.2.2⟩
        intro e' he' st' evts hst hev'
        rcases List.mem_cons.mp he' with rfl | he'
        · rw [hev] at hev'
          exact Option.noConfusion hev'
        · exact hih.2.2.1 e' he' st' evts hst hev'
      | some evts =>
        have hest := indexCastFile_establish env now db e strat st lm evts hwf hstats hlm hev
        have hih := ih (indexCastFile env (noFaults e.path strat.id) now db e strat).2.1
          (n + (indexCastFile env (noFaults e.path strat.id) now db e strat).2.2)
          hest.1 hmrest
        refine ⟨hih.1, hih.2.1.trans hest.2.1, ?_, ?_⟩
        · intro e' he' st' evts' hst hev'
          rcases List.mem_cons.mp he' with rfl | he'
          · exact hih.2.2.2 strat e' hest.2.2.1
          · exact hih.2.2.1 e' he' st' evts' hst hev'
        · intro s' e' h'
          exact hih.2.2.2 s' e' (hest.2.2.2 s' e' h')

theorem indexCastFile_id (env : Env) (now : Int) (db : DbState) (e : FileEntry)
    (strat : Strategy) (hwf : WfDb db)
    (hcase : env.stats e.path = none ∨
      (∃ st, env.stats e.path = some st ∧ env.events e.path = none) ∨
      UpToDate env db strat e) :
    (indexCastFile env none now db e strat).2.1 = db ∧
    (indexCastFile env none now db e strat).2.2 = 0 := by
  rcases hcase with h | ⟨st, hst, hev⟩ | h
  · rw [indexCastFile_statsNone env none now db e strat h]
    exact ⟨rfl, rfl⟩
  · obtain ⟨b, hstep⟩ := indexCastFile_evNone env now db e strat st hwf hst hev
    rw [hstep]
    exact ⟨rfl, rfl⟩
  · rw [indexCastFile_upToDate env now db e strat h]
    exact ⟨rfl, rfl⟩

theorem processFiles_id (env : Env) (now : Int) (strat : Strategy) :
    ∀ (es : List FileEntry) (db : DbState) (n : Nat), WfDb db →
      (∀ e ∈ es, env.stats e.path = none ∨
        (∃ st, env.stats e.path = some st ∧ env.events e.path = none) ∨
        UpToDate env db strat e) →
      processFiles env noFaults now strat (db, n) es = (db, n) := by
  intro es
  induction es with
  | nil => intro db n _ _; rfl
  | cons e rest ih =>
    intro db n hwf hall
    rw [processFiles_cons]
    have hstep : (indexCastFile env (noFaults e.path strat.id) now db e strat).2.1 = db ∧
        (indexCastFile env (noFaults e.path strat.id) now db e strat).2.2 = 0 :=
      indexCastFile_id env now db e strat hwf (hall e (List.mem_cons_self e rest))
    rw [hstep.1, hstep.2]
    exact ih db (n + 0) hwf (fun e' he' => hall e' (List.mem_cons_of_mem e he'))

theorem runStrategies_cons_eq (env : Env) (faults : Str → Str → Option Step) (now : Int)
    (config : Config) (castFiles : List FileEntry) (acc : DbState × Nat) (sid : Str)
    (rest : List Str) :
    runStrategies env faults now config castFiles acc (sid :: rest) =
      match config.indexStrategies.find? (fun s => decide (s.id = sid)) with
      | none => runStrategies env faults now config castFiles acc rest
      | some strategy =>
        runStrategies env faults now config castFiles
          (processFiles env faults now strategy acc castFiles) rest := rfl

theorem runStrategies_establish (env : Env) (now : Int) (config : Config)
    (castFiles : List FileEntry)
    (hm : ∀ e ∈ castFiles, ∀ st, env.stats e.path = some st → st.mtime.isSome = true) :
    ∀ (sids : List Str) (db : DbState) (n : Nat), WfDb db →
      WfDb (runStrategies env noFaults now config castFiles (db, n) sids).1 ∧
      (runStrategies env noFaults now config castFiles (db, n) sids).1.versions =
        db.versions ∧
      (∀ sid ∈ sids, ∀ strat,
        config.indexStrategies.find? (fun s => decide (s.id = sid)) = some strat →
        ∀ e ∈ castFiles, ∀ st evts, env.stats e.path = some st →
          env.events e.path = some evts →
          UpToDate env (runStrategies env noFaults now config castFiles (db, n) sids).1
            strat e) ∧
      (∀ s' e', UpToDate env db s' e' →
        UpToDate env (runStrategies env noFaults now config castFiles (db, n) sids).1
          s' e') := by
  intro sids
  induction sids with
  | nil =>
    intro db n hwf
    exact ⟨hwf, rfl, fun sid hsid => absurd hsid (List.not_mem_nil sid),
      fun s' e' h => h⟩
  | cons sid rest ih =>
    intro db n hwf
    cases hres : config.indexStrategies.find? (fun s => decide (s.id = sid)) with
    | none =>
      rw [runStrategies_cons_eq, hres]
      dsimp only
      have hih := ih db n hwf
      refine ⟨hih.1, hih.2.1, ?_, hih.2.2.2⟩
      intro sid' hsid' strat hstrat
      rcases List.mem_cons.mp hsid' with rfl | hsid'
      · rw [hres] at hstrat
        exact Option.noConfusion hstrat
      · exact hih.2.2.1 sid' hsid' strat hstrat
    | some strat =>
      rw [runStrategies_cons_eq, hres]
      dsimp only
      have hpf := processFiles_establish env now strat castFiles db n hwf hm
      have hih := ih (processFiles env noFaults now strat (db, n) castFiles).1
        (processFiles env noFaults now strat (db, n) castFiles).2 hpf.1
      refine ⟨hih.1, hih.2.1.trans hpf.2.1, ?_,
        fun s' e' h' => hih.2.2.2 s' e' (hpf.2.2.2 s' e' h')⟩
      intro sid' hsid' strat' hstrat
      rcases List.mem_cons.mp hsid' with rfl | hsid'
      · have hstrat' : strat = strat' := Option.some.inj (hres.symm.trans hstrat)
        intro e he st evts hst hev
        rw [← hstrat']
        exact hih.2.2.2 strat e (hpf.2.2.1 e he st evts hst hev)
      · intro e he st evts hst hev
        exact hih.2.2.1 sid' hsid' strat' hstrat e he st evts hst hev

theorem runStrategies_id (env : Env) (now : Int) (config : Config)
    (castFiles : List FileEntry) :
    ∀ (sids : List Str) (db : DbState) (n : Nat), WfDb db →
      (∀ sid ∈ sids, ∀ strat,
        config.indexStrategies.find? (fun s => decide (s.id = sid)) = some strat →
        ∀ e ∈ castFiles, env.stats e.path = none ∨
          (∃ st, env.stats e.path = some st ∧ env.events e.path = none) ∨
          UpToDate env db strat e) →
      runStrategies env noFaults now config castFiles (db, n) sids = (db, n) := by
  intro sids
  induction sids with
  | nil => intro db n _ _; rfl
  | cons sid rest ih =>
    intro db n hwf hall
    cases hres : config.indexStrategies.find? (fun s => decide (s.id = sid)) with
    | none =>
      rw [runStrategies_cons_eq, hres]
      exact ih db n hwf (fun sid' hsid' => hall sid' (List.mem_cons_of_mem sid hsid'))
    | some strat =>
      rw [runStrategies_cons_eq, hres]
      dsimp only
      rw [processFiles_id env now strat castFiles db n hwf
        (hall sid (List.mem_cons_self sid rest) strat hres)]
      exact ih db n hwf (fun sid' hsid' => hall sid' (List.mem_cons_of_mem sid hsid'))

theorem indexCastFiles_eq_stamp (env : Env) (faults : Str → Str → Option Step)
    (now : Int) (config : Config) (castFiles : List FileEntry) (db0 : DbState) :
    indexCastFiles env faults now config castFiles db0 =
      runStrategies env faults now config castFiles (versionStamp config db0, 0)
        config.currentStrategies := rfl

theorem getVersion_setVersion_same (db : DbState) (k v : Str) :
    getVersion (setVersion db k v) k = some v := by
  unfold getVersion setVersion
  dsimp only
  rw [List.find?_append, find?_filter_compl_none db.versions
    (fun x hx => decide_eq_false (fun he => absurd he (of_decide_eq_true hx)))]
  simp [Option.orElse]

theorem getVersion_setVersion_other (db : DbState) (k v k' : Str) (h : k' ≠ k) :
    getVersion (setVersion db k v) k' = getVersion db k' := by
  unfold getVersion setVersion
  dsimp only
  have hsub : ∀ x : Str × Str, decide (x.1 = k') = true → decide (x.1 ≠ k) = true :=
    fun x hx => decide_eq_true (fun he => h ((of_decide_eq_true hx).symm.trans he))
  rw [List.find?_append, find?_filter_subset db.versions hsub]
  cases hf : db.versions.find? (fun kv => decide (kv.1 = k')) with
  | some x => rfl
  | none =>
    simp [Option.orElse]
    exact fun he => absurd he.symm h

theorem setVersion_shape (db : DbState) (k v : Str) :
    ∃ l, (setVersion db k v).versions = l ++ [(k, v)] ∧ ∀ kv ∈ l, kv.1 ≠ k := by
  refine ⟨db.versions.filter (fun kv => decide (kv.1 ≠ k)), rfl, ?_⟩
  intro kv hkv
  exact of_decide_eq_true (List.mem_filter.mp hkv).2

theorem setVersion_id {db : DbState} {k v : Str} {l : List (Str × Str)}
    (hshape : db.versions = l ++ [(k, v)]) (hl : ∀ kv ∈ l, kv.1 ≠ k) :
    setVersion db k v = db := by
  unfold setVersion
  have hfl : db.versions.filter (fun kv => decide (kv.1 ≠ k)) = l := by
    rw [hshape, List.filter_append]
    have h1 : l.filter (fun kv => decide (kv.1 ≠ k)) = l :=
      List.filter_eq_self.mpr (fun kv hkv => decide_eq_true (hl kv hkv))
    have h2 : ([(k, v)] : List (Str × Str)).filter (fun kv => decide (kv.1 ≠ k)) = [] := by
      simp
    rw [h1, h2, List.append_nil]
  rw [hfl, ← hshape]

theorem initDatabase_of_ready {db : DbState} {v : Str}
    (hv : getVersion db schemaKey = some v) (h0 : v ≠ []) (h1 : v ≠ str "0.0.0")
    (h2 : v ≠ str "1.0.0") : initDatabase db = db := by
  unfold initDatabase applyMigrations
  rw [hv]
  dsimp only
  rw [if_neg h0, if_neg h1, if_neg (fun h => h.elim h1 h2)]

theorem initDatabase_ready (db : DbState) :
    ∃ v, getVersion (initDatabase db) schemaKey = some v ∧ v ≠ [] ∧
      v ≠ str "0.0.0" ∧ v ≠ str "1.0.0" := by
  unfold initDatabase applyMigrations
  cases hgv : getVersion db schemaKey with
  | none =>
    dsimp only
    rw [if_pos rfl, if_pos (Or.inl rfl)]
    exact ⟨str "1.1.0", getVersion_setVersion_same _ _ _, by decide, by decide, by decide⟩
  | some v0 =>
    dsimp only
    by_cases h0 : v0 = []
    · rw [if_pos h0]
      rw [if_pos rfl, if_pos (Or.inl rfl)]
      exact ⟨str "1.1.0", getVersion_setVersion_same _ _ _, by decide, by decide, by decide⟩
    · rw [if_neg h0]
      by_cases hA : v0 = str "0.0.0"
      · rw [if_pos hA, if_pos (Or.inl hA)]
        exact ⟨str "1.1.0", getVersion_setVersion_same _ _ _, by decide, by decide, by decide⟩
      · rw [if_neg hA]
        by_cases hB : v0 = str "1.0.0"
        · rw [if_pos (Or.inr hB)]
          exact ⟨str "1.1.0", getVersion_setVersion_same _ _ _, by decide, by decide,
            by decide⟩
        · rw [if_neg (fun h => h.elim hA hB)]
          exact ⟨v0, hgv, h0, hA, hB⟩

theorem versionStamp_ready (config : Config) (db : DbState) :
    VersionsReady config (versionStamp config db) := by
  have hkne : schemaKey ≠ indexerKey := by decide
  obtain ⟨v, hv, h0, h1, h2⟩ := initDatabase_ready db
  unfold versionStamp
  dsimp only
  rw [hv, show jsStrFalsy (some v) = false from by simp [jsStrFalsy, h0],
    if_neg (by simp)]
  constructor
  · refine ⟨v, ?_, h0, h1, h2⟩
    rw [getVersion_setVersion_other _ _ _ _ hkne]
    exact hv
  · exact setVersion_shape _ _ _

theorem versionStamp_id {config : Config} {db : DbState}
    (hready : VersionsReady config db) : versionStamp config db = db := by
  obtain ⟨⟨v, hv, h0, h1, h2⟩, l, hshape, hl⟩ := hready
  unfold versionStamp
  dsimp only
  rw [initDatabase_of_ready hv h0 h1 h2, hv,
    show jsStrFalsy (some v) = false from by simp [jsStrFalsy, h0],
    if_neg (by simp)]
  exact setVersion_id hshape hl

theorem versionsReady_of_versions_eq {config : Config} {db db' : DbState}
    (h : db'.versions = db.versions) (hr : VersionsReady config db) :
    VersionsReady config db' := by
  obtain ⟨⟨v, hv, h0, h1, h2⟩, l, hshape, hl⟩ := hr
  refine ⟨⟨v, ?_, h0, h1, h2⟩, l, ?_, hl⟩
  · unfold getVersion at hv ⊢
    rw [h]
    exact hv
  · rw [h]
    exact hshape

theorem initDatabase_files (db : DbState) : (initDatabase db).files = db.files := by
  unfold initDatabase applyMigrations
  dsimp only
  split
  · split <;> rfl
  · split <;> rfl

theorem initDatabase_nextId (db : DbState) : (initDatabase db).nextId = db.nextId := by
  unfold initDatabase applyMigrations
  dsimp only
  split
  · split <;> rfl
  · split <;> rfl

theorem versionStamp_files (config : Config) (db : DbState) :
    (versionStamp config db).files = db.files := by
  unfold versionStamp
  dsimp only
  split
  · exact initDatabase_files db
  · exact initDatabase_files db

theorem versionStamp_nextId (config : Config) (db : DbState) :
    (versionStamp config db).nextId = db.nextId := by
  unfold versionStamp
  dsimp only
  split
  · exact initDatabase_nextId db
  · exact initDatabase_nextId db

theorem wf_versionStamp (config : Config) {db : DbState} (hwf : WfDb db) :
    WfDb (versionStamp config db) := by
  constructor
  · intro r hr
    rw [versionStamp_files] at hr
    rw [versionStamp_nextId]
    exact hwf.1 r hr
  · rw [versionStamp_files]
    exact hwf.2

/-- C2: running a full reindex pass twice in succession over the same corpus
— the file system (sizes, modification fingerprints, event streams)
unchanged between the runs, and every stat-able file carrying a modification
fingerprint — makes the second pass a no-op: it returns the store exactly as
the first pass left it and reports zero committed fragment inserts; in
particular every strategy application's completedAt timestamp keeps its
first-pass value. -/
theorem reindexSecondPassNoOp (env : Env) (config : Config)
    (castFiles : List FileEntry) (db0 : DbState) (now1 now2 : Int)
    (hwf : WfDb db0)
    (hm : ∀ e ∈ castFiles, ∀ st, env.stats e.path = some st → st.mtime.isSome = true) :
    indexCastFiles env noFaults now2 config castFiles
        (indexCastFiles env noFaults now1 config castFiles db0).1 =
      ((indexCastFiles env noFaults now1 config castFiles db0).1, 0) := by
  have hwfV : WfDb (versionStamp config db0) := wf_versionStamp config hwf
  have hpass1 := runStrategies_establish env now1 config castFiles hm
    config.currentStrategies (versionStamp config db0) 0 hwfV
  have hwfS1 : WfDb (indexCastFiles env noFaults now1 config castFiles db0).1 := hpass1.1
  have hver : (indexCastFiles env noFaults now1 config castFiles db0).1.versions =
      (versionStamp config db0).versions := hpass1.2.1
  have hupd : ∀ sid ∈ config.currentStrategies, ∀ strat,
      config.indexStrategies.find? (fun s => decide (s.id = sid)) = some strat →
      ∀ e ∈ castFiles, ∀ st evts, env.stats e.path = some st →
        env.events e.path = some evts →
        UpToDate env (indexCastFiles env noFaults now1 config castFiles db0).1 strat e :=
    hpass1.2.2.1
  have hstampid : versionStamp config
      (indexCastFiles env noFaults now1 config castFiles db0).1 =
      (indexCastFiles env noFaults now1 config castFiles db0).1 :=
    versionStamp_id (versionsReady_of_versions_eq hver (versionStamp_ready config db0))
  have hcond : ∀ sid ∈ config.currentStrategies, ∀ strat,
      config.indexStrategies.find? (fun s => decide (s.id = sid)) = some strat →
      ∀ e ∈ castFiles, env.stats e.path = none ∨
        (∃ st, env.stats e.path = some st ∧ env.events e.path = none) ∨
        UpToDate env (indexCastFiles env noFaults now1 config castFiles db0).1 strat e := by
    intro sid hsid strat hstrat e he
    cases hst : env.stats e.path with
    | none => exact Or.inl rfl
    | some st =>
      cases hev : env.events e.path with
      | none => exact Or.inr (Or.inl ⟨st, rfl, rfl⟩)
      | some evts =>
        exact Or.inr (Or.inr (hupd sid hsid strat hstrat e he st evts hst hev))
  calc indexCastFiles env noFaults now2 config castFiles
        (indexCastFiles env noFaults now1 config castFiles db0).1
      = runStrategies env noFaults now2 config castFiles
          (versionStamp config (indexCastFiles env noFaults now1 config castFiles db0).1, 0)
          config.currentStrategies := rfl
    _ = runStrategies env noFaults now2 config castFiles
          ((indexCastFiles env noFaults now1 config castFiles db0).1, 0)
          config.currentStrategies := by rw [hstampid]
    _ = ((indexCastFiles env noFaults now1 config castFiles db0).1, 0) :=
        runStrategies_id env now2 config castFiles config.currentStrategies
          (indexCastFiles env noFaults now1 config castFiles db0).1 0 hwfS1 hcond

/-- Witness for C2: over the single plain `foo.cast` from an empty store,
the second reindex pass returns the first pass's store unchanged with zero
fragment inserts. -/
theorem reindexSecondPassNoOp_witness :
    WfDb emptyDb ∧
    indexCastFiles fooEnvPlain noFaults 2000 oneStratCfg [c2Entry]
        (indexCastFiles fooEnvPlain noFaults 1000 oneStratCfg [c2Entry] emptyDb).1 =
      ((indexCastFiles fooEnvPlain noFaults 1000 oneStratCfg [c2Entry] emptyDb).1, 0) :=
  ⟨⟨fun r hr => absurd hr (List.not_mem_nil r), List.Pairwise.nil⟩,
   reindexSecondPassNoOp fooEnvPlain oneStratCfg [c2Entry] emptyDb 1000 2000
    ⟨fun r hr => absurd hr (List.not_mem_nil r), List.Pairwise.nil⟩
    (by
      intro e he st hst
      rw [List.mem_singleton] at he
      subst he
      rw [show fooEnvPlain.stats c2Entry.path = some { size := 3, mtime := some 10 } from
        by decide] at hst
      obtain rfl := Option.some.inj hst
      rfl)⟩

end CastIndex
